import Mathlib

/-!
# ClassToBlog (`clhe publish`): a shallow embedding of `main.go`

The program is a sequential command line tool.  Its functions are embedded as
pure functions over an explicit world: a file store, the lines waiting on
standard input, and a log of what the run printed and which subprocesses it
started.  Whatever the outside world decides (an operating-system call
failing, the exit status of `hexo`, the clock) is an explicit argument.

Go strings are byte sequences and are embedded as `List UInt8`.  The functions
of the Go standard library that `main.go` calls (`strings`, `path/filepath`,
`fmt.Sscanf`, `os`, `io`) are embedded from their documented behaviour under
the names they have in Go.
-/

namespace ClassToBlog

/-! ## Strings -/

/-- A Go `string`: an immutable sequence of bytes. -/
abbrev GoString := List UInt8

/-- The bytes of a string literal of the source text (Go source is UTF-8). -/
def lit (s : String) : GoString := s.data.flatMap String.utf8EncodeChar

/-- Go `strings.HasPrefix(s, pre)`. -/
def HasPrefix (s pre : GoString) : Bool := pre.isPrefixOf s

/-- Go `strings.HasSuffix(s, suffix)`. -/
def HasSuffix (s suffix : GoString) : Bool := suffix.isSuffixOf s

/-- Go `strings.TrimSuffix(s, suffix)`: `s` without the trailing `suffix`, or
`s` itself when it does not end in `suffix`. -/
def TrimSuffix (s suffix : GoString) : GoString :=
  if HasSuffix s suffix then s.take (s.length - suffix.length) else s

/-! ## Package `path/filepath` -/

/-- What package `path/filepath` takes from the operating system the program is
built for.  `volumeNameLen` is `len(filepath.VolumeName(path))` (always `0` off
Windows) and `Join` is `filepath.Join`; both are taken as given. -/
structure Target where
  windows : Bool
  volumeNameLen : GoString → Nat
  Join : List GoString → GoString

/-- Go `os.IsPathSeparator`: `/`, and on Windows also `\`. -/
def Target.IsPathSeparator (t : Target) (c : UInt8) : Bool :=
  c == 47 || (t.windows && c == 92)

/-- Go `filepath.Separator`. -/
def Target.Separator (t : Target) : UInt8 := if t.windows then 92 else 47

/-- Go `filepath.Base`: the last element of `path`.  Trailing separators are
removed first; the empty path gives `.`, a path of separators only gives one
separator. -/
def Base (t : Target) (path : GoString) : GoString :=
  if path = [] then lit "." else
    let stripped := path.rdropWhile t.IsPathSeparator
    let noVolume := stripped.drop (t.volumeNameLen stripped)
    let last := noVolume.rtakeWhile (fun c => !t.IsPathSeparator c)
    if last = [] then [t.Separator] else last

/-- The loop of Go `filepath.Ext`, walking from the last byte towards the
first: `rev` holds the bytes not yet visited (last first), `seen` the bytes
already passed. -/
def extLoop (t : Target) : GoString → GoString → GoString
  | [], _ => []
  | c :: rev, seen =>
    if t.IsPathSeparator c then []
    else if c = 46 then c :: seen
    else extLoop t rev (c :: seen)

/-- Go `filepath.Ext`: the suffix beginning at the final dot in the final
element of `path`; empty if there is no dot. -/
def Ext (t : Target) (path : GoString) : GoString := extLoop t path.reverse []

/-- Lines 103-104 of `main.go`: the title is the base name of the path without
its extension. -/
def titleOf (t : Target) (mdPath : GoString) : GoString :=
  let base := Base t mdPath
  TrimSuffix base (Ext t base)

/-! ## Decimal text and the clock -/

/-- The ASCII digit for `d` (meant for `d < 10`). -/
def digitByte (d : Nat) : UInt8 := UInt8.ofNat (48 + d)

/-- Digits of `n`, most significant first, pushed in front of `acc`. -/
def decimalLoop : Nat → Nat → GoString → GoString
  | 0, _, acc => acc
  | fuel + 1, n, acc =>
    if n < 10 then digitByte n :: acc
    else decimalLoop fuel (n / 10) (digitByte (n % 10) :: acc)

/-- The decimal text of a natural number, as `%d` prints it and as a user
types it. -/
def decimal (n : Nat) : GoString := decimalLoop (n + 1) n []

/-- Decimal text padded with leading zeros to at least `width` digits. -/
def zeroPad (width n : Nat) : GoString :=
  List.replicate (width - (decimal n).length) 48 ++ decimal n

/-- A reading of the wall clock (`time.Now()`), broken down in local time. -/
structure Time where
  year : Nat
  month : Nat
  day : Nat
  hour : Nat
  minute : Nat
  second : Nat

/-- Go `t.Format("2006-01-02 15:04:05")`. -/
def Time.Format (t : Time) : GoString :=
  zeroPad 4 t.year ++ lit "-" ++ zeroPad 2 t.month ++ lit "-" ++ zeroPad 2 t.day ++ lit " " ++
    zeroPad 2 t.hour ++ lit ":" ++ zeroPad 2 t.minute ++ lit ":" ++ zeroPad 2 t.second

/-! ## Errors and the file store -/

/-- Errors that come from outside the program. -/
inductive SysError
  /-- an error for which `os.IsNotExist` holds -/
  | notExist
  /-- any other error of the operating system -/
  | errno (n : Nat)
  /-- `cmd.Run()`: the process ran and exited with a non-zero status -/
  | exitStatus (code : Nat)
  /-- `cmd.Run()`: the process could not be started -/
  | startFailed
  deriving DecidableEq, Repr

/-- The errors the functions of `main.go` return. -/
inductive Error
  /-- an error passed on unchanged -/
  | sys (e : SysError)
  /-- `file does not exist: %s` -/
  | fileDoesNotExist (mdPath : GoString)
  /-- `failed to read file: %v` -/
  | failedToRead (cause : SysError)
  /-- `failed to write file: %v` -/
  | failedToWrite (cause : SysError)
  /-- `failed to copy file: %v` -/
  | failedToCopy (cause : SysError)
  /-- `no markdown files found in %s` -/
  | noMarkdownFiles (root : GoString)
  deriving DecidableEq, Repr

/-- The regular files of the machine.  A path names a file through `resolve`:
two paths with the same value name the same file, as `a.md` and `./a.md` do,
or a link and its target, or on Windows two spellings that differ in letter
case.  `files` gives the content of a file by that identity, `none` where no
file exists.  The program creates and writes files but never renames, links or
removes one, so `resolve` stays as it is during a run. -/
structure FS where
  resolve : GoString → GoString
  files : GoString → Option GoString

/-- The content of the file that `name` names, `none` when there is none. -/
def FS.lookup (fs : FS) (name : GoString) : Option GoString := fs.files (fs.resolve name)

/-- A store applied to a path is the content of the file the path names. -/
instance : CoeFun FS (fun _ => GoString → Option GoString) := ⟨FS.lookup⟩

/-- The store with the file that `name` names holding exactly `data`: the
file has the new content under every path that names it. -/
def FS.put (fs : FS) (name data : GoString) : FS :=
  { resolve := fs.resolve,
    files := fun file => if file = fs.resolve name then some data else fs.files file }

/-- Go `os.ReadFile(name)`.  It fails when the file does not exist, and on an
existing file when the operating system says so (`fault`). -/
def ReadFile (fs : FS) (fault : Option SysError) (name : GoString) : Except SysError GoString :=
  match fs name with
  | none => .error .notExist
  | some content =>
    match fault with
    | some e => .error e
    | none => .ok content

/-- How a call of `os.WriteFile` can go wrong. -/
inductive WriteFault
  /-- the call succeeds -/
  | none
  /-- the file cannot be opened for writing: nothing is changed -/
  | openFails (e : SysError)
  /-- the file is created or truncated, then the call fails with `written`
  bytes in the file ("a failure mid-operation can leave the file in a
  partially written state") -/
  | failsAfter (written : Nat) (e : SysError)
  deriving DecidableEq, Repr

/-- Go `os.WriteFile(name, data, perm)`: create or truncate the file, write
`data`. -/
def WriteFile (fs : FS) (fault : WriteFault) (name data : GoString) : Except SysError Unit × FS :=
  match fault with
  | .openFails e => (.error e, fs)
  | .failsAfter written e => (.error e, fs.put name (data.take written))
  | .none => (.ok (), fs.put name data)

/-! ## `ensureFrontMatter` -/

/-- The two `fmt.Sprintf` calls of lines 110-127. -/
def frontMatter (title now tag : GoString) : GoString :=
  if tag ≠ [] then
    lit "---\ntitle: " ++ title ++ lit "\ndate: " ++ now ++ lit "\ntags: [" ++ tag ++ lit "]\n---\n\n"
  else
    lit "---\ntitle: " ++ title ++ lit "\ndate: " ++ now ++ lit "\ntags:\n---\n\n"

/-- `ensureFrontMatter(mdPath, tag)`, lines 90-136.  `readFault` and
`writeFault` say how the two calls into package `os` go, `now` is the reading
of the clock. -/
def ensureFrontMatter (t : Target) (readFault : Option SysError) (writeFault : WriteFault)
    (now : Time) (mdPath tag : GoString) (fs : FS) : Except Error Unit × FS :=
  match ReadFile fs readFault mdPath with
  | .error e => (.error (.failedToRead e), fs)
  | .ok text =>
    if HasPrefix text (lit "---") then (.ok (), fs)
    else
      let title := titleOf t mdPath
      let front := frontMatter title now.Format tag
      let newContent := front ++ text
      match WriteFile fs writeFault mdPath newContent with
      | (.error e, fs1) => (.error (.failedToWrite e), fs1)
      | (.ok _, fs1) => (.ok (), fs1)

/-! ## `copyFile` -/

/-- How the calls inside `copyFile` can go wrong. -/
structure CopyFaults where
  /-- `os.Open(src)` fails although the file exists -/
  openSrc : Option SysError
  /-- `os.Create(dst)` fails: nothing is created or truncated -/
  createDst : Option SysError
  /-- `io.Copy` fails after this many bytes have reached the destination -/
  copy : Option (Nat × SysError)
  /-- `out.Sync()` fails -/
  sync : Option SysError

/-- No call fails. -/
def CopyFaults.none : CopyFaults :=
  { openSrc := Option.none, createDst := Option.none, copy := Option.none, sync := Option.none }

/-- Go `os.Open(name)`: succeeds on an existing file unless `fault`. -/
def Open (fs : FS) (fault : Option SysError) (name : GoString) : Except SysError Unit :=
  match fs name with
  | none => .error .notExist
  | some _ =>
    match fault with
    | some e => .error e
    | none => .ok ()

/-- Go `os.Create(name)`: the file is created, or truncated if it exists,
whatever other paths name it and whoever holds it open. -/
def Create (fs : FS) (fault : Option SysError) (name : GoString) : Except SysError Unit × FS :=
  match fault with
  | some e => (.error e, fs)
  | none => (.ok (), fs.put name [])

/-- Go `io.Copy(out, in)` for the two handles of `copyFile`: `in` reads the
file that `src` names from its start, `out` writes the file that `dst` names
from its start.  The bytes read are the ones the source file holds when the
copy runs, after `os.Create(dst)`: none, if that call truncated it. -/
def ioCopy (fs : FS) (fault : Option (Nat × SysError)) (dst src : GoString) :
    Except SysError Unit × FS :=
  let data := (fs src).getD []
  match fault with
  | some (written, e) => (.error e, fs.put dst (data.take written))
  | none => (.ok (), fs.put dst data)

/-- `copyFile(src, dst)`, lines 139-157. -/
def copyFile (faults : CopyFaults) (src dst : GoString) (fs : FS) : Except SysError Unit × FS :=
  match Open fs faults.openSrc src with
  | .error e => (.error e, fs)
  | .ok _ =>
    match Create fs faults.createDst dst with
    | (.error e, fs1) => (.error e, fs1)
    | (.ok _, fs1) =>
      match ioCopy fs1 faults.copy dst src with
      | (.error e, fs2) => (.error e, fs2)
      | (.ok _, fs2) =>
        match faults.sync with
        | some e => (.error e, fs2)
        | none => (.ok (), fs2)

/-! ## White space (`strings.TrimSpace`, and the space skipping of `fmt`) -/

/-- The six ASCII white-space bytes: tab, line feed, vertical tab, form feed,
carriage return, space. -/
def isAsciiSpace (c : UInt8) : Bool :=
  c == 9 || c == 10 || c == 11 || c == 12 || c == 13 || c == 32

/-- The UTF-8 encodings, two bytes long, of Unicode white space: U+0085 and
U+00A0. -/
def isSpace2 (a b : UInt8) : Bool := a == 0xC2 && (b == 0x85 || b == 0xA0)

/-- The UTF-8 encodings, three bytes long, of Unicode white space: U+1680,
U+2000 to U+200A, U+2028, U+2029, U+202F, U+205F and U+3000. -/
def isSpace3 (a b c : UInt8) : Bool :=
  (a == 0xE1 && b == 0x9A && c == 0x80) ||
  (a == 0xE2 && b == 0x80 &&
    ((0x80 ≤ c.toNat && c.toNat ≤ 0x8A) || c == 0xA8 || c == 0xA9 || c == 0xAF)) ||
  (a == 0xE2 && b == 0x81 && c == 0x9F) ||
  (a == 0xE3 && b == 0x80 && c == 0x80)

/-- Drop the white-space runes at the start of `s`. -/
def trimLeftSpace : GoString → GoString
  | [] => []
  | a :: r1 =>
    if isAsciiSpace a then trimLeftSpace r1
    else
      match r1 with
      | [] => [a]
      | b :: r2 =>
        if isSpace2 a b then trimLeftSpace r2
        else
          match r2 with
          | [] => [a, b]
          | c :: r3 => if isSpace3 a b c then trimLeftSpace r3 else a :: b :: c :: r3

/-- Drop the white-space runes at the end of a string given last byte first. -/
def trimRightSpaceRev : GoString → GoString
  | [] => []
  | z :: r1 =>
    if isAsciiSpace z then trimRightSpaceRev r1
    else
      match r1 with
      | [] => [z]
      | y :: r2 =>
        if isSpace2 y z then trimRightSpaceRev r2
        else
          match r2 with
          | [] => [z, y]
          | x :: r3 => if isSpace3 x y z then trimRightSpaceRev r3 else z :: y :: x :: r3

/-- Go `strings.TrimSpace(s)`: `s` without leading and trailing white space, as
defined by Unicode. -/
def TrimSpace (s : GoString) : GoString :=
  (trimRightSpaceRev (trimLeftSpace s).reverse).reverse

/-! ## `fmt.Sscanf(input, "%d", &idx)` -/

/-- Why a scan fails. -/
inductive ScanError
  /-- the input ends where the number should start -/
  | unexpectedEOF
  /-- a line feed where the number should start -/
  | unexpectedNewline
  /-- no digit where the number should start -/
  | expectedInteger
  /-- `strconv`: the token is not a number in base 10 -/
  | malformed
  /-- `strconv`: the value does not fit -/
  | range
  /-- the value does not fit the operand -/
  | overflow
  deriving DecidableEq, Repr

/-- The space skipping of `fmt` in `Sscanf`: white space is read over, a line
feed is an error. -/
def SkipSpace : GoString → Except ScanError GoString
  | [] => .ok []
  | a :: r1 =>
    if a = 13 ∧ r1.head? = some 10 then SkipSpace r1
    else if a = 10 then .error .unexpectedNewline
    else if isAsciiSpace a then SkipSpace r1
    else
      match r1 with
      | [] => .ok [a]
      | b :: r2 =>
        if isSpace2 a b then SkipSpace r2
        else
          match r2 with
          | [] => .ok [a, b]
          | c :: r3 => if isSpace3 a b c then SkipSpace r3 else .ok (a :: b :: c :: r3)

/-- The bytes `fmt` accepts in the number of the verb `%d`: the decimal
digits. -/
def isNumberByte (c : UInt8) : Bool := 48 ≤ c.toNat && c.toNat ≤ 57

/-- The largest `uint64`. -/
def maxUint64 : Nat := 2 ^ 64 - 1

/-- The loop of Go `strconv.ParseUint(s, 10, 64)` with `n` the value so far.
Only a digit is a valid byte: a letter is a digit of a larger base, and an
underscore is allowed with base 0 only. -/
def parseUintLoop : GoString → Nat → Except ScanError Nat
  | [], n => .ok n
  | c :: cs, n =>
    if 48 ≤ c.toNat ∧ c.toNat ≤ 57 then
      let d := c.toNat - 48
      if n ≥ maxUint64 / 10 + 1 then .error .range
      else
        let n10 := n * 10
        let n1 := (n10 + d) % 2 ^ 64
        if n1 < n10 ∨ n1 > maxUint64 then .error .range
        else parseUintLoop cs n1
    else .error .malformed

/-- Go `strconv.ParseUint(s, 10, 64)`. -/
def ParseUint (s : GoString) : Except ScanError Nat :=
  if s = [] then .error .malformed else parseUintLoop s 0

/-- Go `strconv.ParseInt(s, 10, 64)`. -/
def ParseInt (s : GoString) : Except ScanError Int :=
  match s with
  | [] => .error .malformed
  | c :: rest =>
    let neg : Bool := c == 45
    let body := if c = 43 ∨ c = 45 then rest else s
    match ParseUint body with
    | .error e => .error e
    | .ok un =>
      if !neg ∧ un ≥ 2 ^ 63 then .error .range
      else if neg ∧ un > 2 ^ 63 then .error .range
      else .ok (if neg then -(un : Int) else (un : Int))

/-- The size of Go `int` in bits. -/
def intBits : Nat := 64

/-- The `scanInt` of `fmt` for the verb `%d`: skip space, take an optional
sign and then decimal digits as far as they go, convert the token.
What follows the token is left unread. -/
def scanInt (bitSize : Nat) (input : GoString) : Except ScanError Int :=
  match SkipSpace input with
  | .error e => .error e
  | .ok s =>
    match s with
    | [] => .error .unexpectedEOF
    | c :: rest =>
      let sign : GoString := if c = 43 ∨ c = 45 then [c] else []
      let afterSign := if c = 43 ∨ c = 45 then rest else s
      if afterSign = [] then .error .unexpectedEOF
      else
        let digits := afterSign.takeWhile isNumberByte
        if digits = [] then .error .expectedInteger
        else
          match ParseInt (sign ++ digits) with
          | .error e => .error e
          | .ok i =>
            if -(2 : Int) ^ (bitSize - 1) ≤ i ∧ i < (2 : Int) ^ (bitSize - 1) then .ok i
            else .error .overflow

/-- Go `fmt.Sscanf(input, "%d", &idx)`: the value stored in `idx`, or the
error.  The format ends with the verb, so input after the number is not
looked at. -/
def Sscanf_d (input : GoString) : Except ScanError Int :=
  match SkipSpace input with
  | .error e => .error e
  | .ok s => scanInt intBits s

/-! ## What a run prints and starts -/

/-- One entry of the log of a run. -/
inductive Event
  /-- the heading of the listing -/
  | listHeading
  /-- the line `[i] f` of the listing -/
  | listItem (i : Nat) (f : GoString)
  /-- the prompt for a number -/
  | prompt
  /-- the message that the input is invalid -/
  | invalidInput
  /-- the message `Copied src -> dst` -/
  | copied (src dst : GoString)
  /-- `runHexoCmd(arg)`: the line `Running: hexo arg`, then `cmd.Run()` -/
  | hexo (arg : GoString)
  /-- the message that the blog was published -/
  | published
  deriving DecidableEq, Repr

/-! ## `runHexoCmd` -/

/-- `runHexoCmd(arg)`, lines 160-167.  `run` is what `cmd.Run()` returns for
`hexo arg`: nothing, or the error of a process that failed to start or exited
with a non-zero status.  The result comes with what the call logged. -/
def runHexoCmd (run : GoString → Option SysError) (arg : GoString) :
    Except Error Unit × List Event :=
  match run arg with
  | some e => (.error (.sys e), [.hexo arg])
  | none => (.ok (), [.hexo arg])

/-! ## `selectMarkdownFile` -/

/-- One call of the function that `filepath.Walk` is given: the path visited,
the name and kind of the entry, and the error of visiting it, if any. -/
structure WalkEntry where
  path : GoString
  name : GoString
  isDir : Bool
  err : Option SysError

/-- The function literal of lines 172-180, with `files` as it is before the
call and as result the `files` after it. -/
def walkFn (files : List GoString) (e : WalkEntry) : Except SysError (List GoString) :=
  match e.err with
  | some err => .error err
  | none =>
    if !e.isDir && HasSuffix e.name (lit ".md") then .ok (files ++ [e.path]) else .ok files

/-- Go `filepath.Walk` over the entries it visits, in order: it stops at the
first error the function returns. -/
def Walk : List WalkEntry → List GoString → Except SysError (List GoString)
  | [], files => .ok files
  | e :: es, files =>
    match walkFn files e with
    | .error err => .error err
    | .ok files1 => Walk es files1

/-- The body of the loop of lines 195-207 for one line read: `some f` when the
loop returns `f`, `none` when the line is rejected and the loop goes round
again. -/
def selectStep (files : List GoString) (line : GoString) : Option GoString :=
  let input := TrimSpace line
  match Sscanf_d input with
  | .error _ => none
  | .ok idx =>
    if h : idx ≤ 0 ∨ idx > (files.length : Int) then none
    else some (files.get ⟨(idx - 1).toNat, by omega⟩)

/-- The loop of lines 195-207 over the lines `reader.ReadString` returns: what
it prints, and `some f` when it returns `f`.  The result is `none` when the
lines run out: from then on `ReadString` returns the empty string, which is
rejected, so the loop never returns. -/
def selectLoop (files : List GoString) : List GoString → List Event × Option GoString
  | [] => ([], none)
  | line :: rest =>
    match selectStep files line with
    | none => (.prompt :: .invalidInput :: (selectLoop files rest).1, (selectLoop files rest).2)
    | some f => ([.prompt], some f)

/-- The listing of lines 190-192, numbered from `i + 1`. -/
def listing : Nat → List GoString → List Event
  | _, [] => []
  | i, f :: fs => .listItem (i + 1) f :: listing (i + 1) fs

/-- `selectMarkdownFile(root)`, lines 170-208.  `visited` is what
`filepath.Walk(root, ...)` visits and `stdin` the lines read.  The result is
`none` when the function never returns; it comes with what was printed. -/
def selectMarkdownFile (visited : List WalkEntry) (stdin : List GoString) (root : GoString) :
    Option (Except Error GoString) × List Event :=
  match Walk visited [] with
  | .error err => (some (.error (.sys err)), [])
  | .ok files =>
    if files.length = 0 then (some (.error (.noMarkdownFiles root)), [])
    else
      match selectLoop files stdin with
      | (printed, none) => (none, .listHeading :: listing 0 files ++ printed)
      | (printed, some f) => (some (.ok f), .listHeading :: listing 0 files ++ printed)

/-! ## The command `publish` -/

/-- Package-level variable `hexoRootDir`. -/
def hexoRootDir : GoString := lit "D:\\Projects\\Blog"

/-- Package-level variable `hexoPostsDir`. -/
def hexoPostsDir (t : Target) : GoString := t.Join [hexoRootDir, lit "source", lit "_posts"]

/-- Package-level variable `classRepoDir`. -/
def classRepoDir : GoString := lit "D:\\Projects\\Class"

/-- The destination of line 60. -/
def dstPath (t : Target) (mdPath : GoString) : GoString :=
  t.Join [hexoPostsDir t, Base t mdPath]

/-- Everything the outside world decides during one run of `publish`. -/
structure Env where
  /-- what `filepath.Walk(classRepoDir, ...)` visits -/
  visited : List WalkEntry
  /-- the lines `reader.ReadString` returns -/
  stdin : List GoString
  /-- how `os.ReadFile` goes -/
  readFault : Option SysError
  /-- how `os.WriteFile` goes -/
  writeFault : WriteFault
  /-- how the calls of `copyFile` go -/
  copyFaults : CopyFaults
  /-- what `cmd.Run()` returns for `hexo arg` -/
  run : GoString → Option SysError
  /-- the clock -/
  now : Time

/-- The file store a run leaves and the log of the run. -/
structure World where
  fs : FS
  log : List Event

/-- Lines 35-47: the path to publish is `args[0]`, or with `--select` the
file chosen interactively. -/
def choosePath (env : Env) (useSelect : Bool) (arg0 : GoString) :
    Option (Except Error GoString) × List Event :=
  if useSelect then selectMarkdownFile env.visited env.stdin classRepoDir
  else (some (.ok arg0), [])

/-- Lines 66-75 of `publishCmd.RunE`: generate, deploy, report.  The result
comes with what was logged. -/
def generateAndDeploy (run : GoString → Option SysError) : Except Error Unit × List Event :=
  match runHexoCmd run (lit "g") with
  | (.error err, l2) => (.error err, l2)
  | (.ok _, l2) =>
    match runHexoCmd run (lit "d") with
    | (.error err, l3) => (.error err, l2 ++ l3)
    | (.ok _, l3) => (.ok (), l2 ++ l3 ++ [.published])

/-- `publishCmd.RunE`, lines 34-76, with `args[0]` and, when there are two
arguments, `args[1]`, on the file store `fs`.  The result is `none` when the
run never returns (the interactive selection waits for ever).  The `hexo`
processes are outside the store: what they do to files is not followed. -/
def publish (t : Target) (env : Env) (useSelect : Bool) (arg0 : GoString)
    (arg1 : Option GoString) (fs : FS) : Option (Except Error Unit) × World :=
  let tag : GoString := arg1.getD []
  match choosePath env useSelect arg0 with
  | (none, log) => (none, { fs := fs, log := log })
  | (some (.error err), log) => (some (.error err), { fs := fs, log := log })
  | (some (.ok mdPath), log) =>
    match fs mdPath with
    | none => (some (.error (.fileDoesNotExist mdPath)), { fs := fs, log := log })
    | some _ =>
      match ensureFrontMatter t env.readFault env.writeFault env.now mdPath tag fs with
      | (.error err, fs1) => (some (.error err), { fs := fs1, log := log })
      | (.ok _, fs1) =>
        match copyFile env.copyFaults mdPath (dstPath t mdPath) fs1 with
        | (.error err, fs2) => (some (.error (.failedToCopy err)), { fs := fs2, log := log })
        | (.ok _, fs2) =>
          let steps := generateAndDeploy env.run
          (some steps.1, { fs := fs2, log := log ++ [.copied mdPath (dstPath t mdPath)] ++ steps.2 })

/-! ## A Unix target

Off Windows there is no volume name and `filepath.Join` is `filepath.Clean` of
the elements joined by `/`. -/

/-- The backtracking of `filepath.Clean` at a `..` element: from index `w`
down to the last separator in `out`, not below `dotdot`. -/
def cleanBacktrack (out : GoString) (dotdot : Nat) : Nat → Nat
  | 0 => 0
  | w + 1 => if w + 1 > dotdot ∧ out.get? (w + 1) ≠ some 47 then cleanBacktrack out dotdot w else w + 1

/-- The loop of Go `filepath.Clean` on Unix: `rest` is the path still to read,
`out` the path written so far, `dotdot` the index in `out` where `..` must
stop.  One round reads at least one byte. -/
def cleanLoop (rooted : Bool) : Nat → GoString → GoString → Nat → GoString
  | 0, _, out, _ => out
  | fuel + 1, rest, out, dotdot =>
    match rest with
    | [] => out
    | c :: tl =>
      if c = 47 then cleanLoop rooted fuel tl out dotdot
      else if c = 46 ∧ (tl = [] ∨ tl.head? = some 47) then cleanLoop rooted fuel tl out dotdot
      else if c = 46 ∧ tl.head? = some 46 ∧ (tl.tail = [] ∨ tl.tail.head? = some 47) then
        if out.length > dotdot then
          cleanLoop rooted fuel tl.tail
            (out.take (cleanBacktrack out dotdot (out.length - 1))) dotdot
        else if !rooted then
          let out1 := (if out.length > 0 then out ++ [47] else out) ++ [46, 46]
          cleanLoop rooted fuel tl.tail out1 out1.length
        else cleanLoop rooted fuel tl.tail out dotdot
      else
        let out1 :=
          if (rooted ∧ out.length ≠ 1) ∨ (!rooted ∧ out.length ≠ 0) then out ++ [47] else out
        cleanLoop rooted fuel (rest.dropWhile (fun b => b != 47))
          (out1 ++ rest.takeWhile (fun b => b != 47)) dotdot

/-- Go `filepath.Clean` on Unix: the shortest path equivalent to `path` by
purely lexical processing. -/
def cleanUnix (path : GoString) : GoString :=
  match path with
  | [] => lit "."
  | c :: rest =>
    let rooted : Bool := c == 47
    let out :=
      if rooted then cleanLoop rooted (path.length + 1) rest [47] 1
      else cleanLoop rooted (path.length + 1) path [] 0
    if out = [] then lit "." else out

/-- Go `filepath.Join` on Unix: leading empty elements are ignored, the rest is
joined by `/` and cleaned. -/
def joinUnix : List GoString → GoString
  | [] => []
  | e :: es => if e = [] then joinUnix es else cleanUnix (List.intercalate [47] (e :: es))

/-- A Unix target. -/
def unix : Target := { windows := false, volumeNameLen := fun _ => 0, Join := joinUnix }

/-! ## Vocabulary of the statements, and sample values -/

/-- The events `selectMarkdownFile` prints. -/
def Event.isSelection : Event → Bool
  | .listHeading => true
  | .listItem _ _ => true
  | .prompt => true
  | .invalidInput => true
  | _ => false

/-- A store with one file, the one that `p` names, on a machine without
links: two paths name the same file when `filepath.Clean` gives them the same
path, so `./a.md` names the file `a.md`. -/
def oneFile (p c : GoString) : FS :=
  { resolve := cleanUnix,
    files := fun file => if file = cleanUnix p then some c else none }

/-- A clock reading: 7 March 2024, 09:05:00. -/
def sampleTime : Time :=
  { year := 2024, month := 3, day := 7, hour := 9, minute := 5, second := 0 }

/-- An outside world in which nothing fails and nothing is typed. -/
def calmEnv : Env :=
  { visited := [], stdin := [], readFault := none, writeFault := .none,
    copyFaults := CopyFaults.none, run := fun _ => none, now := sampleTime }

/-- As `calmEnv`, but the disk is full: `os.WriteFile` truncates the file and
then fails. -/
def fullDiskEnv : Env :=
  { visited := [], stdin := [], readFault := none, writeFault := .failsAfter 0 (.errno 28),
    copyFaults := CopyFaults.none, run := fun _ => none, now := sampleTime }

/-- As `calmEnv`, but `hexo g` exits with status 2. -/
def brokenGenerateEnv : Env :=
  { visited := [], stdin := [], readFault := none, writeFault := .none,
    copyFaults := CopyFaults.none,
    run := fun arg => if arg = lit "g" then some (.exitStatus 2) else none, now := sampleTime }

/-- The line read when the user types `text` and presses return: `text`
followed by a line feed, or by a carriage return and a line feed, or by
nothing when the input ends there. -/
def Typed (text line : GoString) : Prop :=
  line = text ∨ line = text ++ lit "\n" ∨ line = text ++ lit "\r\n"

/-- The number a string of decimal digits stands for, read after the digits
of `m`. -/
def digitsValue (m : Nat) (ds : GoString) : Nat :=
  ds.foldl (fun a c => a * 10 + (c.toNat - 48)) m

/-- Every byte is a decimal digit. -/
def AllDigits (ds : GoString) : Prop := ∀ c ∈ ds, 48 ≤ c.toNat ∧ c.toNat ≤ 57

/-! ## Facts about the header -/

theorem hasPrefix_append_self (p s : GoString) : HasPrefix (p ++ s) p = true := by
  unfold HasPrefix
  rw [List.isPrefixOf_iff_prefix]
  exact List.prefix_append p s

theorem frontMatter_hasPrefix (title now tag c : GoString) :
    HasPrefix (frontMatter title now tag ++ c) (lit "---") = true := by
  have h : lit "---\ntitle: " = lit "---" ++ lit "\ntitle: " := by decide
  unfold frontMatter
  split
  · rw [h]
    simp only [List.append_assoc]
    exact hasPrefix_append_self _ _
  · rw [h]
    simp only [List.append_assoc]
    exact hasPrefix_append_self _ _

theorem put_same (fs : FS) (p c : GoString) : fs.put p c p = some c := by
  simp [FS.put, FS.lookup]

theorem put_resolve (fs : FS) (p c : GoString) : (fs.put p c).resolve = fs.resolve := rfl

/-- Writing a file shows under every path that names it. -/
theorem put_alias (fs : FS) (p q c : GoString) (h : fs.resolve q = fs.resolve p) :
    fs.put p c q = some c := by
  simp [FS.put, FS.lookup, h]

theorem put_other (fs : FS) (p q c : GoString) (h : fs.resolve q ≠ fs.resolve p) :
    fs.put p c q = fs q := by
  simp [FS.put, FS.lookup, h]

theorem put_put (fs : FS) (p a b : GoString) : (fs.put p a).put p b = fs.put p b := by
  simp only [FS.put, FS.mk.injEq, true_and]
  funext file
  by_cases h : file = fs.resolve p <;> simp [h]

/-- What `ensureFrontMatter` does on a file that has front matter. -/
theorem ensureFrontMatter_present (t : Target) (rf : Option SysError) (wf : WriteFault)
    (now : Time) (mdPath tag : GoString) (fs : FS) (c : GoString) (hc : fs mdPath = some c)
    (hp : HasPrefix c (lit "---") = true) :
    (ensureFrontMatter t rf wf now mdPath tag fs).2 = fs ∧
      (rf = none → (ensureFrontMatter t rf wf now mdPath tag fs).1 = .ok ()) := by
  cases rf <;> simp [ensureFrontMatter, ReadFile, hc, hp]

/-- What `ensureFrontMatter` does on a file without front matter when it
succeeds. -/
theorem ensureFrontMatter_fresh (t : Target) (rf : Option SysError) (wf : WriteFault)
    (now : Time) (mdPath tag : GoString) (fs : FS) (c : GoString) (hc : fs mdPath = some c)
    (hp : HasPrefix c (lit "---") = false)
    (hok : (ensureFrontMatter t rf wf now mdPath tag fs).1 = .ok ()) :
    (ensureFrontMatter t rf wf now mdPath tag fs).2 =
      fs.put mdPath (frontMatter (titleOf t mdPath) now.Format tag ++ c) := by
  cases rf <;> cases wf <;> simp_all [ensureFrontMatter, ReadFile, WriteFile]

/-- C1. On a file whose content begins with `---`, `ensureFrontMatter` writes
nothing: the whole store, so the content of the file, is unchanged whatever
the tag, the clock and the faults are, and the call succeeds unless the
operating system fails the read. -/
theorem ensureFrontMatter_keeps_existing_front_matter (t : Target) (rf : Option SysError)
    (wf : WriteFault) (now : Time) (mdPath tag : GoString) (fs : FS) (c : GoString)
    (hc : fs mdPath = some c) (hp : HasPrefix c (lit "---") = true) :
    (ensureFrontMatter t rf wf now mdPath tag fs).2 = fs ∧
      (ensureFrontMatter t rf wf now mdPath tag fs).2 mdPath = some c ∧
      (rf = none → (ensureFrontMatter t rf wf now mdPath tag fs).1 = .ok ()) := by
  obtain ⟨h1, h2⟩ := ensureFrontMatter_present t rf wf now mdPath tag fs c hc hp
  exact ⟨h1, by rw [h1]; exact hc, h2⟩

theorem ensureFrontMatter_keeps_existing_front_matter_witness :
    (ensureFrontMatter unix none (.failsAfter 0 (.errno 28)) sampleTime (lit "/n/a.md")
        (lit "golang") (oneFile (lit "/n/a.md") (lit "---\ntitle: a\n---\nhello\n"))).2 =
        oneFile (lit "/n/a.md") (lit "---\ntitle: a\n---\nhello\n") ∧
      (ensureFrontMatter unix none (.failsAfter 0 (.errno 28)) sampleTime (lit "/n/a.md")
        (lit "golang") (oneFile (lit "/n/a.md") (lit "---\ntitle: a\n---\nhello\n"))).2
        (lit "/n/a.md") = some (lit "---\ntitle: a\n---\nhello\n") ∧
      ((none : Option SysError) = none →
        (ensureFrontMatter unix none (.failsAfter 0 (.errno 28)) sampleTime (lit "/n/a.md")
        (lit "golang") (oneFile (lit "/n/a.md") (lit "---\ntitle: a\n---\nhello\n"))).1 = .ok ()) :=
  ensureFrontMatter_keeps_existing_front_matter unix none (.failsAfter 0 (.errno 28)) sampleTime
    (lit "/n/a.md") (lit "golang") (oneFile (lit "/n/a.md") (lit "---\ntitle: a\n---\nhello\n"))
    (lit "---\ntitle: a\n---\nhello\n") (by decide) (by decide)

/-- C2. On a file without front matter, after a successful `ensureFrontMatter`
a second call, with any tag, at any time and whatever the faults, leaves the
whole store as the first call left it: the file holds the header of the first
call followed by the original content, and no second header. -/
theorem ensureFrontMatter_second_call_changes_nothing (t : Target)
    (rf1 rf2 : Option SysError) (wf1 wf2 : WriteFault) (now1 now2 : Time)
    (mdPath tag1 tag2 : GoString) (fs : FS) (c : GoString) (hc : fs mdPath = some c)
    (hp : HasPrefix c (lit "---") = false)
    (hok : (ensureFrontMatter t rf1 wf1 now1 mdPath tag1 fs).1 = .ok ()) :
    (ensureFrontMatter t rf2 wf2 now2 mdPath tag2
        (ensureFrontMatter t rf1 wf1 now1 mdPath tag1 fs).2).2 =
        (ensureFrontMatter t rf1 wf1 now1 mdPath tag1 fs).2 ∧
      (ensureFrontMatter t rf2 wf2 now2 mdPath tag2
        (ensureFrontMatter t rf1 wf1 now1 mdPath tag1 fs).2).2 mdPath =
        some (frontMatter (titleOf t mdPath) now1.Format tag1 ++ c) ∧
      (rf2 = none → (ensureFrontMatter t rf2 wf2 now2 mdPath tag2
        (ensureFrontMatter t rf1 wf1 now1 mdPath tag1 fs).2).1 = .ok ()) := by
  have h1 := ensureFrontMatter_fresh t rf1 wf1 now1 mdPath tag1 fs c hc hp hok
  have hc1 : (ensureFrontMatter t rf1 wf1 now1 mdPath tag1 fs).2 mdPath =
      some (frontMatter (titleOf t mdPath) now1.Format tag1 ++ c) := by
    rw [h1]; exact put_same _ _ _
  obtain ⟨h2, h3⟩ := ensureFrontMatter_present t rf2 wf2 now2 mdPath tag2 _ _ hc1
    (frontMatter_hasPrefix _ _ _ _)
  exact ⟨h2, by rw [h2]; exact hc1, h3⟩

theorem ensureFrontMatter_second_call_changes_nothing_witness :
    (ensureFrontMatter unix none .none sampleTime (lit "/n/a.md") (lit "rust")
        (ensureFrontMatter unix none .none sampleTime (lit "/n/a.md") (lit "golang")
          (oneFile (lit "/n/a.md") (lit "hello\n"))).2).2 (lit "/n/a.md") =
      some (lit "---\ntitle: a\ndate: 2024-03-07 09:05:00\ntags: [golang]\n---\n\nhello\n") :=
  (ensureFrontMatter_second_call_changes_nothing unix none none .none .none sampleTime sampleTime
    (lit "/n/a.md") (lit "golang") (lit "rust") (oneFile (lit "/n/a.md") (lit "hello\n"))
    (lit "hello\n") (by decide) (by decide) rfl).2.1.trans (by decide)

/-- C3. A successful `ensureFrontMatter` on a file whose content `c` does not
begin with `---` leaves in the file exactly the header followed by `c`: with a
tag `g` the header is `---`, `title: t`, `date: d`, `tags: [g]`, `---` and an
empty line; with the empty tag the tags line is `tags:`.  Here `t` is the title
derived from the path and `d` the formatted clock reading; `c` is a suffix of
the result. -/
theorem ensureFrontMatter_writes_header_then_content (t : Target) (rf : Option SysError)
    (wf : WriteFault) (now : Time) (mdPath tag : GoString) (fs : FS) (c : GoString)
    (hc : fs mdPath = some c) (hp : HasPrefix c (lit "---") = false)
    (hok : (ensureFrontMatter t rf wf now mdPath tag fs).1 = .ok ()) :
    (tag ≠ [] → (ensureFrontMatter t rf wf now mdPath tag fs).2 mdPath =
        some (lit "---\ntitle: " ++ titleOf t mdPath ++ lit "\ndate: " ++ now.Format ++
          lit "\ntags: [" ++ tag ++ lit "]\n---\n\n" ++ c)) ∧
      (tag = [] → (ensureFrontMatter t rf wf now mdPath tag fs).2 mdPath =
        some (lit "---\ntitle: " ++ titleOf t mdPath ++ lit "\ndate: " ++ now.Format ++
          lit "\ntags:\n---\n\n" ++ c)) ∧
      (∃ content, (ensureFrontMatter t rf wf now mdPath tag fs).2 mdPath = some content ∧
        c <:+ content) := by
  have h1 := ensureFrontMatter_fresh t rf wf now mdPath tag fs c hc hp hok
  rw [h1, put_same]
  refine ⟨fun h => ?_, fun h => ?_, ⟨_, rfl, List.suffix_append _ _⟩⟩
  · simp [frontMatter, h]
  · simp [frontMatter, h]

theorem ensureFrontMatter_writes_header_then_content_witness :
    (ensureFrontMatter unix none .none sampleTime (lit "/n/a.md") (lit "golang")
        (oneFile (lit "/n/a.md") (lit "hello\n"))).2 (lit "/n/a.md") =
      some (lit "---\ntitle: a\ndate: 2024-03-07 09:05:00\ntags: [golang]\n---\n\nhello\n") :=
  ((ensureFrontMatter_writes_header_then_content unix none .none sampleTime (lit "/n/a.md")
    (lit "golang") (oneFile (lit "/n/a.md") (lit "hello\n")) (lit "hello\n")
    (by decide) (by decide) rfl).1 (by decide)).trans (by decide)

/-! ## `copyFile` -/

/-- What a successful `copyFile` leaves, source and destination naming
different files. -/
theorem copyFile_ok_store (faults : CopyFaults) (src dst : GoString) (fs : FS) (c : GoString)
    (hc : fs src = some c) (hne : fs.resolve dst ≠ fs.resolve src)
    (hok : (copyFile faults src dst fs).1 = .ok ()) :
    (copyFile faults src dst fs).2 = fs.put dst c := by
  have hsrc : fs.put dst [] src = some c := by
    rw [put_other _ _ _ _ (Ne.symm hne)]; exact hc
  have hpp := put_put fs dst [] c
  obtain ⟨o, cr, cp, sy⟩ := faults
  cases o <;> cases cr <;> cases cp <;> cases sy <;>
    simp_all [copyFile, Open, Create, ioCopy]

/-- What a successful `copyFile` to another file leaves at the destination, at
the source and elsewhere. -/
theorem copyFile_ok_frame (faults : CopyFaults) (src dst : GoString) (fs : FS)
    (c : GoString) (hc : fs src = some c) (hne : fs.resolve dst ≠ fs.resolve src)
    (hok : (copyFile faults src dst fs).1 = .ok ()) :
    (copyFile faults src dst fs).2 dst = some c ∧
      (copyFile faults src dst fs).2 src = some c ∧
      ∀ q, fs.resolve q ≠ fs.resolve dst → (copyFile faults src dst fs).2 q = fs q := by
  rw [copyFile_ok_store faults src dst fs c hc hne hok]
  refine ⟨put_same _ _ _, ?_, fun q hq => put_other _ _ _ _ hq⟩
  rw [put_other _ _ _ _ (Ne.symm hne)]
  exact hc

/-- C5, the claim as stated fails: copying a file onto itself succeeds and
leaves the file empty, not with the bytes it held when `copyFile` was called.
That is so when the destination is the source path, and also when it is
another path for the same file: `./a.md` is not the path `a.md`, yet names the
same file. -/
theorem copyFile_onto_itself_empties_the_file :
    oneFile (lit "a.md") (lit "hello") (lit "a.md") = some (lit "hello") ∧
      (copyFile CopyFaults.none (lit "a.md") (lit "a.md")
        (oneFile (lit "a.md") (lit "hello"))).1 = .ok () ∧
      (copyFile CopyFaults.none (lit "a.md") (lit "a.md")
        (oneFile (lit "a.md") (lit "hello"))).2 (lit "a.md") = some [] ∧
      (copyFile CopyFaults.none (lit "a.md") (lit "a.md")
        (oneFile (lit "a.md") (lit "hello"))).2 (lit "a.md") ≠ some (lit "hello") ∧
      lit "./a.md" ≠ lit "a.md" ∧
      (copyFile CopyFaults.none (lit "a.md") (lit "./a.md")
        (oneFile (lit "a.md") (lit "hello"))).1 = .ok () ∧
      (copyFile CopyFaults.none (lit "a.md") (lit "./a.md")
        (oneFile (lit "a.md") (lit "hello"))).2 (lit "./a.md") = some [] :=
  ⟨by decide, rfl, by decide, by decide, by decide, rfl, by decide⟩

/-- C5, amended. For every source path holding a file and every destination
path that names another file than the source (not the source path, and no
other path for the same file), when `copyFile` returns success the file at the
destination exists and holds exactly the bytes the source held when `copyFile`
was called, whatever the destination held before; the source and every file
other than the destination are unchanged. -/
theorem copyFile_copies_to_another_file (faults : CopyFaults) (src dst : GoString) (fs : FS)
    (c : GoString) (hc : fs src = some c) (hne : fs.resolve dst ≠ fs.resolve src)
    (hok : (copyFile faults src dst fs).1 = .ok ()) :
    (copyFile faults src dst fs).2 dst = some c ∧
      (copyFile faults src dst fs).2 src = some c ∧
      ∀ q, fs.resolve q ≠ fs.resolve dst → (copyFile faults src dst fs).2 q = fs q :=
  copyFile_ok_frame faults src dst fs c hc hne hok

theorem copyFile_copies_to_another_file_witness :
    (copyFile CopyFaults.none (lit "a.md") (lit "posts/a.md")
        ((oneFile (lit "a.md") (lit "hello")).put (lit "posts/a.md") (lit "old text"))).2
        (lit "posts/a.md") = some (lit "hello") :=
  (copyFile_copies_to_another_file CopyFaults.none (lit "a.md") (lit "posts/a.md")
    ((oneFile (lit "a.md") (lit "hello")).put (lit "posts/a.md") (lit "old text")) (lit "hello")
    (by decide) (by decide) rfl).1

/-! ## The command `publish` -/

theorem listing_isSelection (i : Nat) (files : List GoString) :
    ∀ ev ∈ listing i files, ev.isSelection = true := by
  induction files generalizing i with
  | nil => simp [listing]
  | cons f fs ih =>
    intro ev hev
    simp only [listing, List.mem_cons] at hev
    rcases hev with h | h
    · subst h; rfl
    · exact ih _ ev h

theorem selectLoop_isSelection (files lines : List GoString) :
    ∀ ev ∈ (selectLoop files lines).1, ev.isSelection = true := by
  induction lines with
  | nil => simp [selectLoop]
  | cons l ls ih =>
    intro ev hev
    unfold selectLoop at hev
    split at hev
    · simp only [List.mem_cons] at hev
      rcases hev with h | h | h
      · subst h; rfl
      · subst h; rfl
      · exact ih ev h
    · simp only [List.mem_singleton] at hev
      subst hev; rfl

theorem selectMarkdownFile_isSelection (visited : List WalkEntry) (stdin : List GoString)
    (root : GoString) : ∀ ev ∈ (selectMarkdownFile visited stdin root).2, ev.isSelection = true := by
  intro ev hev
  unfold selectMarkdownFile at hev
  split at hev
  · simp at hev
  · split at hev
    · simp at hev
    · rename_i files _ _
      have key : ∀ printed, (∀ e ∈ printed, e.isSelection = true) →
          ev ∈ Event.listHeading :: listing 0 files ++ printed → ev.isSelection = true := by
        intro printed hp h
        simp only [List.cons_append, List.mem_cons, List.mem_append] at h
        rcases h with h | h | h
        · subst h; rfl
        · exact listing_isSelection _ _ ev h
        · exact hp ev h
      split at hev
      · rename_i printed heq
        exact key printed (by
          have := selectLoop_isSelection files stdin
          rw [heq] at this; exact this) hev
      · rename_i printed f heq
        exact key printed (by
          have := selectLoop_isSelection files stdin
          rw [heq] at this; exact this) hev

theorem choosePath_isSelection (env : Env) (useSelect : Bool) (arg0 : GoString) :
    ∀ ev ∈ (choosePath env useSelect arg0).2, ev.isSelection = true := by
  unfold choosePath
  split
  · exact selectMarkdownFile_isSelection _ _ _
  · simp

theorem not_selection_not_mem (log : List Event) (h : ∀ ev ∈ log, ev.isSelection = true)
    (ev : Event) (hev : ev.isSelection = false) : ev ∉ log := by
  intro hmem
  rw [h ev hmem] at hev
  exact Bool.noConfusion hev

/-- C6. In a run of `publish` in which `hexo g` fails (it exits with a non-zero
status or does not start), `hexo d` is never run, the success message is not
printed and the command does not return success: once `hexo g` was run, the
command returns the error of `hexo g`.  In every run, `hexo d` is run only
after `hexo g` was run and returned success. -/
theorem publish_deploys_only_after_generate (t : Target) (env : Env) (useSelect : Bool)
    (arg0 : GoString) (arg1 : Option GoString) (fs : FS) :
    (∀ e, env.run (lit "g") = some e →
        Event.hexo (lit "d") ∉ (publish t env useSelect arg0 arg1 fs).2.log ∧
        Event.published ∉ (publish t env useSelect arg0 arg1 fs).2.log ∧
        (publish t env useSelect arg0 arg1 fs).1 ≠ some (.ok ()) ∧
        (Event.hexo (lit "g") ∈ (publish t env useSelect arg0 arg1 fs).2.log →
          (publish t env useSelect arg0 arg1 fs).1 = some (.error (.sys e)))) ∧
      (Event.hexo (lit "d") ∈ (publish t env useSelect arg0 arg1 fs).2.log →
        Event.hexo (lit "g") ∈ (publish t env useSelect arg0 arg1 fs).2.log ∧
          env.run (lit "g") = none) := by
  have hsel := choosePath_isSelection env useSelect arg0
  have hgd : lit "d" ≠ lit "g" := by decide
  unfold publish
  generalize choosePath env useSelect arg0 = r at hsel
  obtain ⟨r1, log⟩ := r
  simp only at hsel
  have nd : Event.hexo (lit "d") ∉ log := not_selection_not_mem log hsel _ rfl
  have ng : Event.hexo (lit "g") ∉ log := not_selection_not_mem log hsel _ rfl
  have np : Event.published ∉ log := not_selection_not_mem log hsel _ rfl
  rcases r1 with _ | ⟨err | mdPath⟩
  · simp [nd, ng, np]
  · simp [nd, ng, np]
  · simp only
    cases hfs : fs mdPath with
    | none => simp [nd, ng, np]
    | some c0 =>
      simp only
      rcases hens : ensureFrontMatter t env.readFault env.writeFault env.now mdPath
        (arg1.getD []) fs with ⟨_ | _, fs1⟩
      · simp [nd, ng, np]
      · simp only
        rcases hcp : copyFile env.copyFaults mdPath (dstPath t mdPath) fs1 with ⟨_ | _, fs2⟩
        · simp [nd, ng, np]
        · cases hg : env.run (lit "g") with
          | some e => simp [generateAndDeploy, runHexoCmd, hg, nd, ng, np, hgd]
          | none =>
            cases hd : env.run (lit "d") <;>
              simp [generateAndDeploy, runHexoCmd, hg, hd, nd, ng, np, hgd]

theorem publish_deploys_only_after_generate_witness :
    Event.hexo (lit "d") ∉ (publish unix brokenGenerateEnv false (lit "/n/a.md") none
        (oneFile (lit "/n/a.md") (lit "hello\n"))).2.log ∧
      (publish unix brokenGenerateEnv false (lit "/n/a.md") none
        (oneFile (lit "/n/a.md") (lit "hello\n"))).1 = some (.error (.sys (.exitStatus 2))) :=
  ⟨((publish_deploys_only_after_generate unix brokenGenerateEnv false (lit "/n/a.md") none
      (oneFile (lit "/n/a.md") (lit "hello\n"))).1 (.exitStatus 2) (by decide)).1,
    ((publish_deploys_only_after_generate unix brokenGenerateEnv false (lit "/n/a.md") none
      (oneFile (lit "/n/a.md") (lit "hello\n"))).1 (.exitStatus 2) (by decide)).2.2.2 (by decide)⟩

/-- What `ensureFrontMatter` leaves untouched: every file but the one it is
called on. -/
theorem ensureFrontMatter_other_files (t : Target) (rf : Option SysError) (wf : WriteFault)
    (now : Time) (mdPath tag : GoString) (fs : FS) (q : GoString)
    (hq : fs.resolve q ≠ fs.resolve mdPath) :
    (ensureFrontMatter t rf wf now mdPath tag fs).2 q = fs q := by
  unfold ensureFrontMatter ReadFile
  cases fs mdPath with
  | none => rfl
  | some c =>
    cases rf with
    | some e => rfl
    | none =>
      simp only
      split
      · rfl
      · cases wf <;> simp [WriteFile, FS.put, FS.lookup, hq]

/-- `ensureFrontMatter` changes no name of a file. -/
theorem ensureFrontMatter_resolve (t : Target) (rf : Option SysError) (wf : WriteFault)
    (now : Time) (mdPath tag : GoString) (fs : FS) :
    (ensureFrontMatter t rf wf now mdPath tag fs).2.resolve = fs.resolve := by
  unfold ensureFrontMatter ReadFile
  cases fs mdPath with
  | none => rfl
  | some c =>
    cases rf with
    | some e => rfl
    | none =>
      simp only
      split
      · rfl
      · cases wf <;> simp [WriteFile, FS.put]

/-- C9, the claim as stated fails: the file to publish lies in the posts
directory, so that the destination is the file itself, and the disk is full.
`ensureFrontMatter` fails and the command returns its error, yet the
destination file has lost its content.  That is so when the path given is the
destination path, and also when it is another path for the same file, with
`./` in front. -/
theorem publish_failed_write_truncates_the_destination :
    dstPath unix (lit "D:\\Projects\\Blog/source/_posts/a.md") =
        lit "D:\\Projects\\Blog/source/_posts/a.md" ∧
      (ensureFrontMatter unix fullDiskEnv.readFault fullDiskEnv.writeFault fullDiskEnv.now
        (lit "D:\\Projects\\Blog/source/_posts/a.md") []
        (oneFile (lit "D:\\Projects\\Blog/source/_posts/a.md") (lit "hello\n"))).1 =
        .error (.failedToWrite (.errno 28)) ∧
      (publish unix fullDiskEnv false (lit "D:\\Projects\\Blog/source/_posts/a.md") none
        (oneFile (lit "D:\\Projects\\Blog/source/_posts/a.md") (lit "hello\n"))).1 =
        some (.error (.failedToWrite (.errno 28))) ∧
      oneFile (lit "D:\\Projects\\Blog/source/_posts/a.md") (lit "hello\n")
        (dstPath unix (lit "D:\\Projects\\Blog/source/_posts/a.md")) = some (lit "hello\n") ∧
      (publish unix fullDiskEnv false (lit "D:\\Projects\\Blog/source/_posts/a.md") none
        (oneFile (lit "D:\\Projects\\Blog/source/_posts/a.md") (lit "hello\n"))).2.fs
        (dstPath unix (lit "D:\\Projects\\Blog/source/_posts/a.md")) = some [] ∧
      dstPath unix (lit "./D:\\Projects\\Blog/source/_posts/a.md") ≠
        lit "./D:\\Projects\\Blog/source/_posts/a.md" ∧
      (publish unix fullDiskEnv false (lit "./D:\\Projects\\Blog/source/_posts/a.md") none
        (oneFile (lit "./D:\\Projects\\Blog/source/_posts/a.md") (lit "hello\n"))).1 =
        some (.error (.failedToWrite (.errno 28))) ∧
      oneFile (lit "./D:\\Projects\\Blog/source/_posts/a.md") (lit "hello\n")
        (dstPath unix (lit "./D:\\Projects\\Blog/source/_posts/a.md")) = some (lit "hello\n") ∧
      (publish unix fullDiskEnv false (lit "./D:\\Projects\\Blog/source/_posts/a.md") none
        (oneFile (lit "./D:\\Projects\\Blog/source/_posts/a.md") (lit "hello\n"))).2.fs
        (dstPath unix (lit "./D:\\Projects\\Blog/source/_posts/a.md")) = some [] :=
  ⟨by decide, rfl, rfl, by decide, by decide, by decide, rfl, by decide, by decide⟩

/-- C9, amended. In a run of `publish` in which `ensureFrontMatter` fails (the
file cannot be read, or the new content cannot be written), the command
returns that error, logs no copy, no `hexo` run and no success message, and
leaves every file other than the file to publish as it was: so the destination
file is exactly as before the run whenever the destination path does not name
the file to publish (it is not its path, nor another path for that file). -/
theorem publish_stops_when_ensureFrontMatter_fails (t : Target) (env : Env) (useSelect : Bool)
    (arg0 : GoString) (arg1 : Option GoString) (fs : FS) (mdPath : GoString) (log : List Event)
    (err : Error) (hsel : choosePath env useSelect arg0 = (some (.ok mdPath), log))
    (hex : fs mdPath ≠ none)
    (hfail : (ensureFrontMatter t env.readFault env.writeFault env.now mdPath
      (arg1.getD []) fs).1 = .error err) :
    (publish t env useSelect arg0 arg1 fs).1 = some (.error err) ∧
      (∀ ev ∈ (publish t env useSelect arg0 arg1 fs).2.log, ev.isSelection = true) ∧
      (∀ q, fs.resolve q ≠ fs.resolve mdPath →
        (publish t env useSelect arg0 arg1 fs).2.fs q = fs q) ∧
      (fs.resolve (dstPath t mdPath) ≠ fs.resolve mdPath →
        (publish t env useSelect arg0 arg1 fs).2.fs (dstPath t mdPath) = fs (dstPath t mdPath)) := by
  have hlog := choosePath_isSelection env useSelect arg0
  rw [hsel] at hlog
  have hoth := ensureFrontMatter_other_files t env.readFault env.writeFault env.now mdPath
    (arg1.getD []) fs
  have key : publish t env useSelect arg0 arg1 fs = (some (.error err),
      { fs := (ensureFrontMatter t env.readFault env.writeFault env.now mdPath
          (arg1.getD []) fs).2, log := log }) := by
    unfold publish
    rw [hsel]
    simp only
    cases hfs : fs mdPath with
    | none => exact absurd hfs hex
    | some c0 =>
      simp only
      rcases hens : ensureFrontMatter t env.readFault env.writeFault env.now mdPath
        (arg1.getD []) fs with ⟨_ | _, fs1⟩
      · rw [hens] at hfail
        simp only [Except.error.injEq] at hfail
        subst hfail
        rfl
      · rw [hens] at hfail
        cases hfail
  rw [key]
  exact ⟨rfl, hlog, hoth, fun h => hoth _ h⟩

theorem publish_stops_when_ensureFrontMatter_fails_witness :
    (publish unix fullDiskEnv false (lit "/n/a.md") none
        ((oneFile (lit "/n/a.md") (lit "hello\n")).put
          (dstPath unix (lit "/n/a.md")) (lit "old post"))).1 =
        some (.error (.failedToWrite (.errno 28))) ∧
      (publish unix fullDiskEnv false (lit "/n/a.md") none
        ((oneFile (lit "/n/a.md") (lit "hello\n")).put
          (dstPath unix (lit "/n/a.md")) (lit "old post"))).2.fs (dstPath unix (lit "/n/a.md")) =
        some (lit "old post") :=
  ⟨(publish_stops_when_ensureFrontMatter_fails unix fullDiskEnv false (lit "/n/a.md") none
      ((oneFile (lit "/n/a.md") (lit "hello\n")).put (dstPath unix (lit "/n/a.md"))
        (lit "old post")) (lit "/n/a.md") [] (.failedToWrite (.errno 28)) rfl (by decide) rfl).1,
    ((publish_stops_when_ensureFrontMatter_fails unix fullDiskEnv false (lit "/n/a.md") none
      ((oneFile (lit "/n/a.md") (lit "hello\n")).put (dstPath unix (lit "/n/a.md"))
        (lit "old post")) (lit "/n/a.md") [] (.failedToWrite (.errno 28)) rfl (by decide)
        rfl).2.2.2 (by decide)).trans (by decide)⟩

/-- C10, the claim as stated fails: the file to publish lies in the posts
directory and is given by another path than the destination path, with `./` in
front.  The two paths differ, the run gets past the copy step and ends in
success, and the published file is empty: `os.Create` on the destination has
truncated the source, which is the same file.  It does not begin with
`---`. -/
theorem publish_other_path_of_destination_leaves_empty_post :
    lit "D:\\Projects\\Blog/source/_posts/a.md" ≠
        lit "./D:\\Projects\\Blog/source/_posts/a.md" ∧
      dstPath unix (lit "./D:\\Projects\\Blog/source/_posts/a.md") =
        lit "D:\\Projects\\Blog/source/_posts/a.md" ∧
      Event.copied (lit "./D:\\Projects\\Blog/source/_posts/a.md")
          (lit "D:\\Projects\\Blog/source/_posts/a.md") ∈
        (publish unix calmEnv false (lit "./D:\\Projects\\Blog/source/_posts/a.md") none
          (oneFile (lit "./D:\\Projects\\Blog/source/_posts/a.md") (lit "hello\n"))).2.log ∧
      (publish unix calmEnv false (lit "./D:\\Projects\\Blog/source/_posts/a.md") none
        (oneFile (lit "./D:\\Projects\\Blog/source/_posts/a.md") (lit "hello\n"))).1 =
        some (.ok ()) ∧
      (publish unix calmEnv false (lit "./D:\\Projects\\Blog/source/_posts/a.md") none
        (oneFile (lit "./D:\\Projects\\Blog/source/_posts/a.md") (lit "hello\n"))).2.fs
        (lit "D:\\Projects\\Blog/source/_posts/a.md") = some [] ∧
      HasPrefix [] (lit "---") = false :=
  ⟨by decide, by decide, by decide, rfl, by decide, by decide⟩

/-- C10, amended. In a run of `publish` that got past the copy step (it
printed `Copied src -> dst`) with `dst` not naming the source file (it is not
the path `src`, nor another path for that file), `dst` is `filepath.Join` of
the posts directory (`D:\Projects\Blog`, `source`, `_posts` joined) and the
base name of `src`, and the destination file holds what `ensureFrontMatter`
left in the source file: the original content when that began with `---`, the
generated header followed by the original content otherwise.  In both cases
the destination content begins with `---`. -/
theorem publish_copy_begins_with_front_matter (t : Target) (env : Env) (useSelect : Bool)
    (arg0 : GoString) (arg1 : Option GoString) (fs : FS) (src dst : GoString)
    (hcopied : Event.copied src dst ∈ (publish t env useSelect arg0 arg1 fs).2.log)
    (hne : fs.resolve dst ≠ fs.resolve src) :
    dst = t.Join [t.Join [lit "D:\\Projects\\Blog", lit "source", lit "_posts"], Base t src] ∧
      ∃ original content, fs src = some original ∧
        (publish t env useSelect arg0 arg1 fs).2.fs dst = some content ∧
        (publish t env useSelect arg0 arg1 fs).2.fs src = some content ∧
        HasPrefix content (lit "---") = true ∧
        (HasPrefix original (lit "---") = true → content = original) ∧
        (HasPrefix original (lit "---") = false →
          content = frontMatter (titleOf t src) env.now.Format (arg1.getD []) ++ original) := by
  have hsel := choosePath_isSelection env useSelect arg0
  unfold publish at hcopied ⊢
  generalize choosePath env useSelect arg0 = r at hsel hcopied
  obtain ⟨r1, log⟩ := r
  simp only at hsel
  have nc : Event.copied src dst ∉ log := not_selection_not_mem log hsel _ rfl
  rcases r1 with _ | ⟨err | mdPath⟩
  · exact absurd hcopied nc
  · exact absurd hcopied nc
  · simp only at hcopied ⊢
    cases hfs : fs mdPath with
    | none => rw [hfs] at hcopied; exact absurd hcopied nc
    | some c0 =>
      rw [hfs] at hcopied
      simp only at hcopied ⊢
      rcases hens : ensureFrontMatter t env.readFault env.writeFault env.now mdPath
        (arg1.getD []) fs with ⟨_ | _, fs1⟩
      · rw [hens] at hcopied; exact absurd hcopied nc
      · rw [hens] at hcopied
        simp only at hcopied ⊢
        have hens1 : (ensureFrontMatter t env.readFault env.writeFault env.now mdPath
            (arg1.getD []) fs).1 = .ok () := by rw [hens]
        have hens2 : (ensureFrontMatter t env.readFault env.writeFault env.now mdPath
            (arg1.getD []) fs).2 = fs1 := by rw [hens]
        rcases hcp : copyFile env.copyFaults mdPath (dstPath t mdPath) fs1 with ⟨_ | _, fs2⟩
        · rw [hcp] at hcopied; exact absurd hcopied nc
        · rw [hcp] at hcopied
          have hcp1 : (copyFile env.copyFaults mdPath (dstPath t mdPath) fs1).1 = .ok () := by
            rw [hcp]
          have hcp2 : (copyFile env.copyFaults mdPath (dstPath t mdPath) fs1).2 = fs2 := by
            rw [hcp]
          have hmem : Event.copied src dst = Event.copied mdPath (dstPath t mdPath) := by
            cases hg : env.run (lit "g") with
            | some e => simpa [generateAndDeploy, runHexoCmd, hg, nc] using hcopied
            | none =>
              cases hd : env.run (lit "d") <;>
                simpa [generateAndDeploy, runHexoCmd, hg, hd, nc] using hcopied
          simp only [Event.copied.injEq] at hmem
          obtain ⟨h1, h2⟩ := hmem
          subst h1
          subst h2
          simp only
          have hres : fs1.resolve = fs.resolve := by
            rw [← hens2]
            exact ensureFrontMatter_resolve _ _ _ _ _ _ _
          have hne1 : fs1.resolve (dstPath t src) ≠ fs1.resolve src := by
            rw [hres]; exact hne
          refine ⟨rfl, c0, ?_⟩
          by_cases hp : HasPrefix c0 (lit "---") = true
          · have hstore := (ensureFrontMatter_present t env.readFault env.writeFault env.now src
              (arg1.getD []) fs c0 hfs hp).1
            rw [hens2] at hstore
            have hsrc : fs1 src = some c0 := by rw [hstore]; exact hfs
            obtain ⟨a, b, _⟩ := copyFile_ok_frame env.copyFaults src
              (dstPath t src) fs1 c0 hsrc hne1 hcp1
            rw [hcp2] at a b
            exact ⟨c0, hfs, a, b, hp, (fun _ => rfl), (fun h => by rw [hp] at h; cases h)⟩
          · have hp2 : HasPrefix c0 (lit "---") = false := by simpa using hp
            have hstore := ensureFrontMatter_fresh t env.readFault env.writeFault env.now src
              (arg1.getD []) fs c0 hfs hp2 hens1
            rw [hens2] at hstore
            have hsrc : fs1 src = some (frontMatter (titleOf t src) env.now.Format
                (arg1.getD []) ++ c0) := by rw [hstore]; exact put_same _ _ _
            obtain ⟨a, b, _⟩ := copyFile_ok_frame env.copyFaults src
              (dstPath t src) fs1 _ hsrc hne1 hcp1
            rw [hcp2] at a b
            exact ⟨_, hfs, a, b, frontMatter_hasPrefix _ _ _ _,
              (fun h => by rw [hp2] at h; cases h), (fun _ => rfl)⟩

theorem publish_copy_begins_with_front_matter_witness :
    (publish unix calmEnv false (lit "/n/a.md") (some (lit "golang"))
        (oneFile (lit "/n/a.md") (lit "hello\n"))).2.fs
        (lit "D:\\Projects\\Blog/source/_posts/a.md") =
      some (lit "---\ntitle: a\ndate: 2024-03-07 09:05:00\ntags: [golang]\n---\n\nhello\n") := by
  obtain ⟨_, original, content, h1, h2, _, _, _, h3⟩ :=
    publish_copy_begins_with_front_matter unix calmEnv false (lit "/n/a.md")
      (some (lit "golang")) (oneFile (lit "/n/a.md") (lit "hello\n")) (lit "/n/a.md")
      (lit "D:\\Projects\\Blog/source/_posts/a.md") (by decide) (by decide)
  have ho : original = lit "hello\n" := Option.some.inj (h1.symm.trans (by decide))
  subst ho
  rw [h2, h3 (by decide)]
  decide

/-! ## The title -/

theorem isPathSeparator_dot (t : Target) : t.IsPathSeparator 46 = false := by
  cases h : t.windows <;> simp [Target.IsPathSeparator, h]

theorem isPathSeparator_separator (t : Target) : t.IsPathSeparator t.Separator = true := by
  cases h : t.windows <;> simp [Target.IsPathSeparator, Target.Separator, h]

theorem separator_ne_dot (t : Target) : t.Separator ≠ 46 := by
  cases h : t.windows <;> simp [Target.Separator, h]

/-- The loop of `Ext` passes over bytes that are neither a separator nor a
dot. -/
theorem extLoop_skip (t : Target) (s rest seen : GoString)
    (hs : ∀ c ∈ s, t.IsPathSeparator c = false ∧ c ≠ 46) :
    extLoop t (s ++ rest) seen = extLoop t rest (s.reverse ++ seen) := by
  induction s generalizing seen with
  | nil => rfl
  | cons c s ih =>
    have hc := hs c (List.mem_cons_self _ _)
    have hs' : ∀ x ∈ s, t.IsPathSeparator x = false ∧ x ≠ 46 :=
      fun x hx => hs x (List.mem_cons_of_mem _ hx)
    simp only [List.cons_append, extLoop, hc.1, hc.2, if_false, Bool.false_eq_true,
      List.append_eq]
    rw [ih _ hs']
    simp

theorem Ext_no_dot (t : Target) (b : GoString) (hsep : ∀ c ∈ b, t.IsPathSeparator c = false)
    (hdot : (46 : UInt8) ∉ b) : Ext t b = [] := by
  unfold Ext
  have := extLoop_skip t b.reverse [] [] (fun c hc => by
    rw [List.mem_reverse] at hc
    exact ⟨hsep c hc, fun e => hdot (e ▸ hc)⟩)
  rw [List.append_nil] at this
  rw [this]
  rfl

theorem Ext_last_dot (t : Target) (pre suf : GoString)
    (hsep : ∀ c ∈ suf, t.IsPathSeparator c = false) (hdot : (46 : UInt8) ∉ suf) :
    Ext t (pre ++ 46 :: suf) = 46 :: suf := by
  unfold Ext
  rw [List.reverse_append, List.reverse_cons, List.append_assoc]
  rw [extLoop_skip t suf.reverse _ [] (fun c hc => by
    rw [List.mem_reverse] at hc
    exact ⟨hsep c hc, fun e => hdot (e ▸ hc)⟩)]
  simp [extLoop, isPathSeparator_dot]

theorem Ext_separator (t : Target) : Ext t [t.Separator] = [] := by
  simp [Ext, extLoop, isPathSeparator_separator]

theorem TrimSuffix_nil (s : GoString) : TrimSuffix s [] = s := by
  simp [TrimSuffix, HasSuffix]

theorem TrimSuffix_append (pre s : GoString) : TrimSuffix (pre ++ s) s = pre := by
  have h : HasSuffix (pre ++ s) s = true := by
    unfold HasSuffix
    rw [List.isSuffixOf_iff_suffix]
    exact List.suffix_append pre s
  simp [TrimSuffix, h]

/-- The result of `Base` holds no separator, unless it is the separator
alone. -/
theorem Base_shape (t : Target) (path : GoString) :
    (∀ c ∈ Base t path, t.IsPathSeparator c = false) ∨ Base t path = [t.Separator] := by
  unfold Base
  split
  · left
    intro c hc
    have : c = 46 := by
      have h : lit "." = [46] := by decide
      rw [h] at hc
      simpa using hc
    rw [this]
    exact isPathSeparator_dot t
  · simp only
    split
    · right; rfl
    · left
      intro c hc
      rw [List.rtakeWhile, List.mem_reverse] at hc
      have := List.mem_takeWhile_imp hc
      simpa using this

/-- The extension taken from a base name, when the base name has a dot. -/
theorem Ext_Base_dot (t : Target) (path pre suf : GoString)
    (hb : Base t path = pre ++ 46 :: suf) (hdot : (46 : UInt8) ∉ suf) :
    Ext t (Base t path) = 46 :: suf := by
  rcases Base_shape t path with h | h
  · rw [hb]
    exact Ext_last_dot t pre suf (fun c hc => h c (by rw [hb]; simp [hc])) hdot
  · rw [h] at hb
    have hm : (46 : UInt8) ∈ [t.Separator] := by rw [hb]; simp
    exact absurd (List.mem_singleton.mp hm).symm (separator_ne_dot t)

/-- The extension taken from a base name without a dot is empty. -/
theorem Ext_Base_no_dot (t : Target) (path : GoString) (hdot : (46 : UInt8) ∉ Base t path) :
    Ext t (Base t path) = [] := by
  rcases Base_shape t path with h | h
  · exact Ext_no_dot t _ h hdot
  · rw [h]; exact Ext_separator t

theorem titleOf_of_base (t : Target) (path pre suf : GoString)
    (hb : Base t path = pre ++ 46 :: suf) (hdot : (46 : UInt8) ∉ suf) :
    titleOf t path = pre := by
  unfold titleOf
  simp only
  rw [Ext_Base_dot t path pre suf hb hdot, hb]
  exact TrimSuffix_append pre (46 :: suf)

theorem takeWhile_append_stop {α : Type} (p : α → Bool) (w : List α) (x : α) (r : List α)
    (hw : ∀ c ∈ w, p c = true) (hx : p x = false) : (w ++ x :: r).takeWhile p = w := by
  induction w with
  | nil => simp [List.takeWhile, hx]
  | cons a w ih =>
    have ha := hw a (List.mem_cons_self _ _)
    simp only [List.cons_append, List.takeWhile, ha, List.append_eq]
    rw [ih (fun c hc => hw c (List.mem_cons_of_mem _ hc))]

/-- The base name of a path that ends in `/` and a name without separators,
when the volume name ends before that name. -/
theorem Base_of_dir_slash_name (t : Target) (dir name : GoString) (hne : name ≠ [])
    (hname : ∀ c ∈ name, t.IsPathSeparator c = false)
    (hvol : t.volumeNameLen (dir ++ 47 :: name) ≤ dir.length + 1) :
    Base t (dir ++ 47 :: name) = name := by
  have hsl : t.IsPathSeparator 47 = true := by simp [Target.IsPathSeparator]
  obtain ⟨z, front, hz⟩ : ∃ z front, name.reverse = z :: front := by
    cases h : name.reverse with
    | nil => exact absurd (List.reverse_eq_nil_iff.mp h) hne
    | cons z front => exact ⟨z, front, rfl⟩
  have hzsep : t.IsPathSeparator z = false :=
    hname z (by rw [← List.mem_reverse, hz]; exact List.mem_cons_self _ _)
  have hstrip : (dir ++ 47 :: name).rdropWhile t.IsPathSeparator = dir ++ 47 :: name := by
    rw [List.rdropWhile]
    have : (dir ++ 47 :: name).reverse = z :: (front ++ 47 :: dir.reverse) := by
      simp [hz]
    rw [this]
    simp only [List.dropWhile, hzsep]
    rw [← this, List.reverse_reverse]
  have hdrop : ∀ v, v ≤ dir.length + 1 → ∃ d, (dir ++ 47 :: name).drop v = d ++ name ∧
      (d = [] ∨ ∃ d1, d = d1 ++ [47]) := by
    intro v hv
    have e : dir ++ 47 :: name = (dir ++ [47]) ++ name := by simp
    have hl : v ≤ (dir ++ [47]).length := by simpa using hv
    refine ⟨(dir ++ [47]).drop v, ?_, ?_⟩
    · rw [e, List.drop_append_of_le_length hl]
    · by_cases hlt : v ≤ dir.length
      · right
        exact ⟨dir.drop v, List.drop_append_of_le_length hlt⟩
      · left
        apply List.drop_eq_nil_of_le
        simp only [List.length_append, List.length_singleton]
        omega
  obtain ⟨d, hd, hshape⟩ := hdrop _ hvol
  have hlast : (d ++ name).rtakeWhile (fun c => !t.IsPathSeparator c) = name := by
    rw [List.rtakeWhile, List.reverse_append]
    have hrev : ∀ c ∈ name.reverse, (fun c => !t.IsPathSeparator c) c = true := by
      intro c hc
      simp [hname c (List.mem_reverse.mp hc)]
    rcases hshape with h | ⟨d1, h⟩
    · subst h
      simp only [List.reverse_nil, List.append_nil]
      rw [List.takeWhile_eq_self_iff.mpr hrev, List.reverse_reverse]
    · subst h
      rw [List.reverse_append, List.reverse_singleton, List.singleton_append]
      rw [takeWhile_append_stop _ _ _ _ hrev (by simp [hsl]), List.reverse_reverse]
  unfold Base
  have hnil : dir ++ 47 :: name ≠ [] := by simp
  simp only [hnil, if_false, hstrip, hd, hlast, hne]

theorem frontMatter_title_line (title now tag : GoString) :
    ∃ rest, frontMatter title now tag = lit "---\n" ++ (lit "title: " ++ title) ++ lit "\n" ++ rest := by
  have h1 : lit "---\ntitle: " = lit "---\n" ++ lit "title: " := by decide
  have h2 : lit "\ndate: " = lit "\n" ++ lit "date: " := by decide
  by_cases h : tag = []
  · exact ⟨lit "date: " ++ now ++ lit "\ntags:\n---\n\n", by
      simp only [frontMatter, h, h1, h2, ne_eq, not_true_eq_false, if_false, List.append_assoc]⟩
  · exact ⟨lit "date: " ++ now ++ lit "\ntags: [" ++ tag ++ lit "]\n---\n\n", by
      simp only [frontMatter, h, h1, h2, ne_eq, not_false_eq_true, if_true, List.append_assoc]⟩

/-- C4. The title put in the header is the base name of the path without its
extension, the extension being the part of the base name from its last dot
on: a base name without a dot is the title as it is, and a base name
`pre.suf` with no dot in `suf` gives the title `pre`.  So the base name
`2024-notes.md` gives `2024-notes` and `a.b.md` gives `a.b`; and a path ending
in `/2024-notes.md`, whose volume name (empty off Windows) ends before that
last element, gives the header line `title: 2024-notes`. -/
theorem title_is_base_name_without_extension (t : Target) (mdPath : GoString) :
    ((46 : UInt8) ∉ Base t mdPath → titleOf t mdPath = Base t mdPath) ∧
      (∀ pre suf, Base t mdPath = pre ++ 46 :: suf → (46 : UInt8) ∉ suf →
        titleOf t mdPath = pre) ∧
      (Base t mdPath = lit "2024-notes.md" → titleOf t mdPath = lit "2024-notes") ∧
      (Base t mdPath = lit "a.b.md" → titleOf t mdPath = lit "a.b") ∧
      (∀ dir, mdPath = dir ++ lit "/2024-notes.md" →
        t.volumeNameLen mdPath ≤ dir.length + 1 →
        Base t mdPath = lit "2024-notes.md" ∧ titleOf t mdPath = lit "2024-notes" ∧
          ∀ now tag, ∃ rest, frontMatter (titleOf t mdPath) now tag =
            lit "---\n" ++ lit "title: 2024-notes" ++ lit "\n" ++ rest) := by
  have hnotes : ∀ p, Base t p = lit "2024-notes.md" → titleOf t p = lit "2024-notes" :=
    fun p hb => titleOf_of_base t p (lit "2024-notes") (lit "md")
      (hb.trans (by decide)) (by decide)
  refine ⟨fun h => ?_, fun pre suf hb hdot => titleOf_of_base t mdPath pre suf hb hdot,
    hnotes mdPath, fun hb => ?_, fun dir hp hvol => ?_⟩
  · unfold titleOf
    simp only
    rw [Ext_Base_no_dot t mdPath h]
    exact TrimSuffix_nil _
  · exact titleOf_of_base t mdPath (lit "a.b") (lit "md") (hb.trans (by decide)) (by decide)
  · have hb : Base t mdPath = lit "2024-notes.md" := by
      have e : lit "/2024-notes.md" = 47 :: lit "2024-notes.md" := by decide
      rw [hp, e] at hvol ⊢
      refine Base_of_dir_slash_name t dir (lit "2024-notes.md") (by decide) ?_ hvol
      intro c hc
      have hc' : c ∈ ([50, 48, 50, 52, 45, 110, 111, 116, 101, 115, 46, 109, 100] : List UInt8) := by
        have e2 : lit "2024-notes.md" = [50, 48, 50, 52, 45, 110, 111, 116, 101, 115, 46, 109, 100] := by
          decide
        rw [e2] at hc; exact hc
      simp only [List.mem_cons, List.mem_singleton, List.not_mem_nil, or_false] at hc'
      cases hw : t.windows <;>
        rcases hc' with h | h | h | h | h | h | h | h | h | h | h | h | h <;>
          subst h <;> simp [Target.IsPathSeparator, hw]
    refine ⟨hb, hnotes mdPath hb, fun now tag => ?_⟩
    rw [hnotes mdPath hb]
    obtain ⟨rest, hr⟩ := frontMatter_title_line (lit "2024-notes") now tag
    have e3 : lit "title: " ++ lit "2024-notes" = lit "title: 2024-notes" := by decide
    rw [e3] at hr
    exact ⟨rest, hr⟩

theorem title_is_base_name_without_extension_witness :
    titleOf unix (lit "/home/u/class/2024-notes.md") = lit "2024-notes" :=
  ((title_is_base_name_without_extension unix (lit "/home/u/class/2024-notes.md")).2.2.2.2
    (lit "/home/u/class") (by decide) (by decide)).2.1

/-! ## Reading a number from a line -/

theorem toNat_digitByte (d : Nat) (h : d < 10) : (digitByte d).toNat = 48 + d := by
  show (48 + d) % 256 = 48 + d
  omega

theorem ne_of_toNat_ne (c k : UInt8) (h : c.toNat ≠ k.toNat) : c ≠ k :=
  fun e => h (e ▸ rfl)

/-- A printable ASCII byte is not white space and starts no white-space
rune, forwards or backwards. -/
theorem printable_facts (c : UInt8) (h1 : 33 ≤ c.toNat) (h2 : c.toNat ≤ 126) :
    isAsciiSpace c = false ∧ (∀ b, isSpace2 c b = false) ∧ (∀ a b, isSpace3 c a b = false) ∧
      (∀ a, isSpace2 a c = false) ∧ (∀ a b, isSpace3 a b c = false) ∧ c ≠ 13 ∧ c ≠ 10 := by
  have hne : ∀ k : UInt8, (k.toNat < 33 ∨ 126 < k.toNat) → c ≠ k := by
    intro k hk
    apply ne_of_toNat_ne
    omega
  have e9 := hne 9 (by decide)
  have e10 := hne 10 (by decide)
  have e11 := hne 11 (by decide)
  have e12 := hne 12 (by decide)
  have e13 := hne 13 (by decide)
  have e32 := hne 32 (by decide)
  have eC2 := hne 0xC2 (by decide)
  have eE1 := hne 0xE1 (by decide)
  have eE2 := hne 0xE2 (by decide)
  have eE3 := hne 0xE3 (by decide)
  have e85 := hne 0x85 (by decide)
  have eA0 := hne 0xA0 (by decide)
  have e80 := hne 0x80 (by decide)
  have eA8 := hne 0xA8 (by decide)
  have eA9 := hne 0xA9 (by decide)
  have eAF := hne 0xAF (by decide)
  have e9F := hne 0x9F (by decide)
  have hlo : ¬ (128 ≤ c.toNat) := by omega
  refine ⟨?_, ?_, ?_, ?_, ?_, e13, e10⟩
  · simp [isAsciiSpace, e9, e10, e11, e12, e13, e32]
  · intro b; simp [isSpace2, eC2]
  · intro a b; simp [isSpace3, eE1, eE2, eE3]
  · intro a; simp [isSpace2, e85, eA0]
  · intro a b; simp [isSpace3, e80, eA8, eA9, eAF, e9F, hlo]

theorem trimLeftSpace_printable (c : UInt8) (r : GoString) (h1 : 33 ≤ c.toNat)
    (h2 : c.toNat ≤ 126) : trimLeftSpace (c :: r) = c :: r := by
  obtain ⟨ha, hb, hc, _⟩ := printable_facts c h1 h2
  cases r with
  | nil => simp [trimLeftSpace, ha]
  | cons b r2 =>
    cases r2 with
    | nil => simp [trimLeftSpace, ha, hb]
    | cons d r3 => simp [trimLeftSpace, ha, hb, hc]

theorem trimRightSpaceRev_printable (c : UInt8) (r : GoString) (h1 : 33 ≤ c.toNat)
    (h2 : c.toNat ≤ 126) : trimRightSpaceRev (c :: r) = c :: r := by
  obtain ⟨ha, _, _, hb, hc, _⟩ := printable_facts c h1 h2
  cases r with
  | nil => simp [trimRightSpaceRev, ha]
  | cons b r2 =>
    cases r2 with
    | nil => simp [trimRightSpaceRev, ha, hb]
    | cons d r3 => simp [trimRightSpaceRev, ha, hb, hc]

theorem SkipSpace_printable (c : UInt8) (r : GoString) (h1 : 33 ≤ c.toNat)
    (h2 : c.toNat ≤ 126) : SkipSpace (c :: r) = .ok (c :: r) := by
  obtain ⟨ha, hb, hc, _, _, h13, h10⟩ := printable_facts c h1 h2
  cases r with
  | nil => simp [SkipSpace, ha, h13, h10]
  | cons b r2 =>
    cases r2 with
    | nil => simp [SkipSpace, ha, hb, h13, h10]
    | cons d r3 => simp [SkipSpace, ha, hb, hc, h13, h10]

theorem trimRightSpaceRev_space (c : UInt8) (r : GoString) (h : isAsciiSpace c = true) :
    trimRightSpaceRev (c :: r) = trimRightSpaceRev r := by
  cases r with
  | nil => simp [trimRightSpaceRev, h]
  | cons b r2 =>
    cases r2 with
    | nil => simp [trimRightSpaceRev, h]
    | cons d r3 => simp [trimRightSpaceRev, h]

/-- A text that begins and ends with a printable ASCII byte, as read from a
line: trimming gives the text back. -/
theorem TrimSpace_typed (text line : GoString) (a z : UInt8) (front back : GoString)
    (hfront : text = a :: back) (hback : text.reverse = z :: front)
    (ha1 : 33 ≤ a.toNat) (ha2 : a.toNat ≤ 126) (hz1 : 33 ≤ z.toNat) (hz2 : z.toNat ≤ 126)
    (hline : Typed text line) : TrimSpace line = text := by
  have hleft : ∀ eol, trimLeftSpace (text ++ eol) = text ++ eol := by
    intro eol
    rw [hfront, List.cons_append]
    exact trimLeftSpace_printable a _ ha1 ha2
  have hright : trimRightSpaceRev (z :: front) = z :: front :=
    trimRightSpaceRev_printable z front hz1 hz2
  have e1 : lit "\n" = [10] := by decide
  have e2 : lit "\r\n" = [13, 10] := by decide
  have s10 : isAsciiSpace 10 = true := by decide
  have s13 : isAsciiSpace 13 = true := by decide
  unfold TrimSpace
  rcases hline with h | h | h
  · subst h
    have := hleft []
    rw [List.append_nil] at this
    rw [this, hback, hright, ← hback, List.reverse_reverse]
  · subst h
    rw [hleft, e1, List.reverse_append, hback]
    simp only [List.reverse_singleton, List.singleton_append]
    rw [trimRightSpaceRev_space _ _ s10, hright, ← hback, List.reverse_reverse]
  · subst h
    rw [hleft, e2, List.reverse_append, hback]
    simp only [List.reverse_cons, List.reverse_nil, List.nil_append, List.cons_append,
      List.singleton_append]
    rw [trimRightSpaceRev_space _ _ s10, trimRightSpaceRev_space _ _ s13, hright, ← hback,
      List.reverse_reverse]

/-! ### Decimal digits -/

theorem digitsValue_append (m : Nat) (ds : GoString) (c : UInt8) :
    digitsValue m (ds ++ [c]) = digitsValue m ds * 10 + (c.toNat - 48) := by
  simp [digitsValue, List.foldl_append]

theorem digitsValue_cons (m : Nat) (c : UInt8) (ds : GoString) :
    digitsValue m (c :: ds) = digitsValue (m * 10 + (c.toNat - 48)) ds := rfl

theorem le_digitsValue (m : Nat) (ds : GoString) : m ≤ digitsValue m ds := by
  induction ds generalizing m with
  | nil => exact Nat.le_refl _
  | cons c cs ih =>
    rw [digitsValue_cons]
    have := ih (m * 10 + (c.toNat - 48))
    omega

/-- The loop of `decimal` writes digits that stand for the number. -/
theorem decimalLoop_spec (fuel n : Nat) (acc : GoString) (h : n < fuel) :
    ∃ ds, decimalLoop fuel n acc = ds ++ acc ∧ ds ≠ [] ∧ AllDigits ds ∧ digitsValue 0 ds = n := by
  induction fuel generalizing n acc with
  | zero => omega
  | succ fuel ih =>
    unfold decimalLoop
    by_cases hn : n < 10
    · refine ⟨[digitByte n], by simp [hn], by simp, ?_, ?_⟩
      · intro c hc
        rw [List.mem_singleton] at hc
        rw [hc, toNat_digitByte n hn]
        omega
      · simp [digitsValue, toNat_digitByte n hn]
    · have hlt : n / 10 < fuel := by omega
      obtain ⟨ds, h1, _, h3, h4⟩ := ih (n / 10) (digitByte (n % 10) :: acc) hlt
      have hm : n % 10 < 10 := Nat.mod_lt _ (by decide)
      refine ⟨ds ++ [digitByte (n % 10)], by simp [hn, h1], by simp, ?_, ?_⟩
      · intro c hc
        rw [List.mem_append, List.mem_singleton] at hc
        rcases hc with hc | hc
        · exact h3 c hc
        · rw [hc, toNat_digitByte _ hm]
          omega
      · rw [digitsValue_append, h4, toNat_digitByte _ hm]
        omega

theorem decimal_spec (n : Nat) :
    decimal n ≠ [] ∧ AllDigits (decimal n) ∧ digitsValue 0 (decimal n) = n := by
  obtain ⟨ds, h1, h2, h3, h4⟩ := decimalLoop_spec (n + 1) n [] (Nat.lt_succ_self n)
  rw [List.append_nil] at h1
  unfold decimal
  rw [h1]
  exact ⟨h2, h3, h4⟩

/-- `ParseUint` on a string of digits whose value fits 64 bits. -/
theorem parseUintLoop_digits (ds : GoString) (m : Nat) (hd : AllDigits ds)
    (hv : digitsValue m ds < 2 ^ 64) : parseUintLoop ds m = .ok (digitsValue m ds) := by
  induction ds generalizing m with
  | nil => rfl
  | cons c cs ih =>
    have hc := hd c (List.mem_cons_self _ _)
    have hcs : AllDigits cs := fun x hx => hd x (List.mem_cons_of_mem _ hx)
    rw [digitsValue_cons] at hv ⊢
    have hle := le_digitsValue (m * 10 + (c.toNat - 48)) cs
    have hsmall : m * 10 + (c.toNat - 48) < 2 ^ 64 := Nat.lt_of_le_of_lt hle hv
    have hmod : (m * 10 + (c.toNat - 48)) % 2 ^ 64 = m * 10 + (c.toNat - 48) :=
      Nat.mod_eq_of_lt hsmall
    have hcut : ¬ (m ≥ maxUint64 / 10 + 1) := by
      unfold maxUint64
      omega
    have hwrap : ¬ (m * 10 + (c.toNat - 48) < m * 10 ∨ m * 10 + (c.toNat - 48) > maxUint64) := by
      unfold maxUint64
      omega
    unfold parseUintLoop
    simp only [hc.1, hc.2, and_self, if_true, hcut, if_false, hmod, hwrap]
    exact ih _ hcs hv

theorem takeWhile_isNumberByte_digits (ds : GoString) (hd : AllDigits ds) :
    ds.takeWhile isNumberByte = ds := by
  rw [List.takeWhile_eq_self_iff]
  intro c hc
  have := hd c hc
  simp [isNumberByte, this.1, this.2]

/-- What `Sscanf` with `%d` reads from a string of digits whose value fits 64
bits: the value if it fits an `int`, else an error. -/
theorem Sscanf_d_digits (ds : GoString) (hne : ds ≠ []) (hd : AllDigits ds)
    (hv : digitsValue 0 ds < 2 ^ 64) :
    Sscanf_d ds =
      if digitsValue 0 ds < 2 ^ 63 then .ok (digitsValue 0 ds : Int) else .error .range := by
  cases ds with
  | nil => exact absurd rfl hne
  | cons c rest =>
    have hc := hd c (List.mem_cons_self _ _)
    have hskip := SkipSpace_printable c rest (by omega) (by omega)
    have h43 : c ≠ 43 := ne_of_toNat_ne _ _ (by
      have : (43 : UInt8).toNat = 43 := rfl
      omega)
    have h45 : c ≠ 45 := ne_of_toNat_ne _ _ (by
      have : (45 : UInt8).toNat = 45 := rfl
      omega)
    have hpu : ParseUint (c :: rest) = .ok (digitsValue 0 (c :: rest)) := by
      unfold ParseUint
      simp only [List.cons_ne_nil, if_false, reduceCtorEq]
      exact parseUintLoop_digits _ 0 hd hv
    have htw := takeWhile_isNumberByte_digits (c :: rest) hd
    unfold Sscanf_d
    rw [hskip]
    simp only
    unfold scanInt
    rw [hskip]
    simp only [h43, h45, or_self, if_false, List.nil_append, htw, List.cons_ne_nil, reduceCtorEq]
    unfold ParseInt
    simp only [h43, h45, or_self, if_false, hpu, beq_iff_eq, Bool.false_eq_true, false_and,
      Bool.not_eq_true', decide_eq_false_iff_not]
    have e63 : (2 : Nat) ^ 63 = 9223372036854775808 := by norm_num
    by_cases hlt : digitsValue 0 (c :: rest) < 2 ^ 63
    · have hge : ¬ (9223372036854775808 ≤ digitsValue 0 (c :: rest)) := by omega
      have hlt2 : digitsValue 0 (c :: rest) < 9223372036854775808 := by omega
      have hfit : -(2 : Int) ^ (intBits - 1) ≤ (digitsValue 0 (c :: rest) : Int) ∧
          (digitsValue 0 (c :: rest) : Int) < (2 : Int) ^ (intBits - 1) := by
        have e : intBits - 1 = 63 := rfl
        rw [e]
        constructor
        · have : (0 : Int) ≤ (digitsValue 0 (c :: rest) : Int) := Int.ofNat_nonneg _
          have h2 : (0 : Int) ≤ (2 : Int) ^ 63 := by norm_num
          omega
        · exact_mod_cast hlt
      simp [hlt2, hge, hfit]
    · have hge : 9223372036854775808 ≤ digitsValue 0 (c :: rest) := by omega
      have hlt2 : ¬ (digitsValue 0 (c :: rest) < 9223372036854775808) := by omega
      simp [hlt2, hge, h45]

/-- The number of `%d` ends at the first byte that is not a digit, an
underscore included: `1_0` is read as 1 and `2_` as 2. -/
theorem Sscanf_d_stops_at_underscore :
    Sscanf_d (lit "1_0") = .ok 1 ∧ Sscanf_d (lit "2_") = .ok 2 ∧
      selectStep [lit "a.md", lit "b.md"] (lit "2_\n") = some (lit "b.md") :=
  ⟨rfl, rfl, by decide⟩

/-! ## The selection loop -/

theorem TrimSpace_typed_digits (ds line : GoString) (hne : ds ≠ []) (hd : AllDigits ds)
    (hl : Typed ds line) : TrimSpace line = ds := by
  obtain ⟨a, back, hfront⟩ : ∃ a back, ds = a :: back := by
    cases ds with
    | nil => exact absurd rfl hne
    | cons a back => exact ⟨a, back, rfl⟩
  obtain ⟨z, front, hback⟩ : ∃ z front, ds.reverse = z :: front := by
    cases h : ds.reverse with
    | nil => exact absurd (List.reverse_eq_nil_iff.mp h) hne
    | cons z front => exact ⟨z, front, rfl⟩
  have ha := hd a (by rw [hfront]; exact List.mem_cons_self _ _)
  have hz := hd z (by rw [← List.mem_reverse, hback]; exact List.mem_cons_self _ _)
  exact TrimSpace_typed ds line a z front back hfront hback (by omega) (by omega) (by omega)
    (by omega) hl

/-- The text `abc` is rejected. -/
theorem selectStep_abc (files : List GoString) (line : GoString) (hl : Typed (lit "abc") line) :
    selectStep files line = none := by
  have htrim : TrimSpace line = lit "abc" :=
    TrimSpace_typed (lit "abc") line 97 99 [98, 97] [98, 99] (by decide) (by decide) (by decide)
      (by decide) (by decide) (by decide) hl
  have hscan : Sscanf_d (lit "abc") = .error .expectedInteger := rfl
  unfold selectStep
  simp only [htrim, hscan]

/-- The decimal text of a number outside `1..N` is rejected. -/
theorem selectStep_decimal_outside (files : List GoString) (n : Nat) (line : GoString)
    (hn : n = 0 ∨ files.length < n) (h64 : n < 2 ^ 64) (hl : Typed (decimal n) line) :
    selectStep files line = none := by
  obtain ⟨hne, hd, hval⟩ := decimal_spec n
  have htrim := TrimSpace_typed_digits (decimal n) line hne hd hl
  have hscan := Sscanf_d_digits (decimal n) hne hd (by rw [hval]; exact h64)
  rw [hval] at hscan
  unfold selectStep
  simp only [htrim, hscan]
  by_cases h63 : n < 2 ^ 63
  · simp only [h63, if_true]
    rw [dif_pos (by omega)]
  · simp only [h63, if_false]

/-- The decimal text of `k` within `1..N` makes the loop return the `k`-th
file. -/
theorem selectStep_decimal_inside (files : List GoString) (k : Nat) (line : GoString)
    (hk1 : 1 ≤ k) (hk2 : k ≤ files.length) (hint : files.length < 2 ^ 63)
    (hl : Typed (decimal k) line) :
    ∃ f, files.get? (k - 1) = some f ∧ selectStep files line = some f := by
  obtain ⟨hne, hd, hval⟩ := decimal_spec k
  have htrim := TrimSpace_typed_digits (decimal k) line hne hd hl
  have h63 : k < 2 ^ 63 := by omega
  have hscan := Sscanf_d_digits (decimal k) hne hd (by rw [hval]; omega)
  rw [hval] at hscan
  simp only [h63, if_true] at hscan
  have hidx : k - 1 < files.length := by omega
  refine ⟨files.get ⟨k - 1, hidx⟩, List.get?_eq_get hidx, ?_⟩
  unfold selectStep
  simp only [htrim, hscan]
  rw [dif_neg (by omega)]
  simp only [Option.some.injEq]
  congr 1
  apply Fin.ext
  simp only
  omega

theorem selectLoop_reject (files : List GoString) (line : GoString) (rest : List GoString)
    (h : selectStep files line = none) :
    selectLoop files (line :: rest) =
      (.prompt :: .invalidInput :: (selectLoop files rest).1, (selectLoop files rest).2) := by
  rw [selectLoop]
  simp only [h]

theorem selectLoop_accept (files : List GoString) (line : GoString) (rest : List GoString)
    (f : GoString) (h : selectStep files line = some f) :
    selectLoop files (line :: rest) = ([.prompt], some f) := by
  rw [selectLoop]
  simp only [h]

/-- C7. With `N` files listed and `1 <= k <= N`, let the lines read be any
number of the invalid inputs `abc`, `0` and the decimal text of `N + 1`, in any
order, and then the decimal text of `k` (each as typed, with or without its
line end), followed by anything.  Every invalid line is rejected: the loop
prints the prompt and the message for each and goes on; at the line of `k` it
prints the prompt once more and returns the `k`-th listed file, and so
`selectMarkdownFile` returns that file without error. -/
theorem selectLoop_rejects_invalid_then_returns_kth (files : List GoString) (k : Nat)
    (bad : List GoString) (good : GoString) (rest : List GoString)
    (hk1 : 1 ≤ k) (hk2 : k ≤ files.length) (hint : files.length < 2 ^ 63)
    (hbad : ∀ l ∈ bad, Typed (lit "abc") l ∨ Typed (lit "0") l ∨
      Typed (decimal (files.length + 1)) l)
    (hgood : Typed (decimal k) good) :
    (∀ l ∈ bad, selectStep files l = none) ∧
      ∃ f, files.get? (k - 1) = some f ∧ selectStep files good = some f ∧
        selectLoop files (bad ++ good :: rest) =
          (bad.flatMap (fun _ => [Event.prompt, Event.invalidInput]) ++ [Event.prompt], some f) ∧
        ∀ visited root, Walk visited [] = .ok files →
          (selectMarkdownFile visited (bad ++ good :: rest) root).1 = some (.ok f) := by
  have hrej : ∀ l ∈ bad, selectStep files l = none := by
    intro l hl
    rcases hbad l hl with h | h | h
    · exact selectStep_abc files l h
    · have e : lit "0" = decimal 0 := by decide
      rw [e] at h
      exact selectStep_decimal_outside files 0 l (Or.inl rfl) (by norm_num) h
    · exact selectStep_decimal_outside files _ l (Or.inr (Nat.lt_succ_self _)) (by omega) h
  obtain ⟨f, hf1, hf2⟩ := selectStep_decimal_inside files k good hk1 hk2 hint hgood
  have hloop : selectLoop files (bad ++ good :: rest) =
      (bad.flatMap (fun _ => [Event.prompt, Event.invalidInput]) ++ [Event.prompt], some f) := by
    clear hbad
    induction bad with
    | nil => exact selectLoop_accept files good rest f hf2
    | cons l ls ih =>
      have hl := hrej l (List.mem_cons_self _ _)
      have ih' := ih (fun x hx => hrej x (List.mem_cons_of_mem _ hx))
      rw [List.cons_append, selectLoop_reject files l _ hl, ih']
      simp
  refine ⟨hrej, f, hf1, hf2, hloop, ?_⟩
  intro visited root hwalk
  have hlen : files.length ≠ 0 := by omega
  unfold selectMarkdownFile
  rw [hwalk]
  simp only [hlen, if_false, hloop]

theorem selectLoop_rejects_invalid_then_returns_kth_witness :
    selectLoop [lit "a.md", lit "b.md", lit "c.md"]
        ([lit "abc\n", decimal 4 ++ lit "\r\n", lit "0"] ++ (decimal 2 ++ lit "\n") ::
          [lit "1\n"]) =
      ([Event.prompt, Event.invalidInput, Event.prompt, Event.invalidInput, Event.prompt,
        Event.invalidInput, Event.prompt], some (lit "b.md")) := by
  obtain ⟨_, f, h1, _, h3, _⟩ :=
    selectLoop_rejects_invalid_then_returns_kth [lit "a.md", lit "b.md", lit "c.md"] 2
      [lit "abc\n", decimal 4 ++ lit "\r\n", lit "0"] (decimal 2 ++ lit "\n") [lit "1\n"]
      (by decide) (by decide) (by decide)
      (by
        intro l hl
        simp only [List.mem_cons, List.mem_singleton, List.not_mem_nil, or_false] at hl
        rcases hl with h | h | h
        · exact Or.inl (Or.inr (Or.inl (h.trans (by decide))))
        · exact Or.inr (Or.inr (Or.inr (Or.inr h)))
        · exact Or.inr (Or.inl (Or.inl h)))
      (Or.inr (Or.inl rfl))
  have hf : f = lit "b.md" := Option.some.inj (h1.symm.trans (by decide))
  rw [h3, hf]
  rfl

/-- C8, evaluated where the code and the claim part: with two files listed,
the line `2abc` is not the text of a decimal integer, yet the loop does not
reject it but returns the second file, because `Sscanf` reads the leading `2`
and leaves `abc` unread.  The same holds for `2 3` and `2.5`. -/
theorem selectStep_accepts_digits_followed_by_text :
    TrimSpace (lit "2abc\n") = lit "2abc" ∧
      Sscanf_d (lit "2abc") = .ok 2 ∧
      selectStep [lit "a.md", lit "b.md"] (lit "2abc\n") = some (lit "b.md") ∧
      selectLoop [lit "a.md", lit "b.md"] [lit "2abc\n"] = ([Event.prompt], some (lit "b.md")) ∧
      selectStep [lit "a.md", lit "b.md"] (lit "2 3\n") = some (lit "b.md") ∧
      selectStep [lit "a.md", lit "b.md"] (lit "2.5\n") = some (lit "b.md") :=
  ⟨by decide, rfl, by decide, by decide, by decide, by decide⟩


end ClassToBlog
